import Mathlib

/-!
Shallow embedding of the `os-helper` repository's configuration resolver
(`os_helper/config_utils.py` with its collaborators in `path_utils.py`,
`string_utils.py`, `logging_utils.py`) and of the duration conversions
`time2str` / `str2time` (`os_helper/misc_utils.py`).

Modelling conventions:
* The file system and the process environment are explicit values
  (`FS`, association lists of strings); paths are taken to be normalized
  absolute paths, so `os.path.abspath` is the identity on them.
* Python exceptions (`SystemExit` raised by `logging_utils.error`,
  `FileNotFoundError` from `open`, parse errors from `json.load`) are
  modelled with `Except String`; the payload carries the message.
* `logging.error` (the stdlib logger used by `misc_utils.str2time`,
  which does NOT raise) is modelled by accumulating the logged message
  in the result; `logging.info` calls are dropped.
* Python `float` values are modelled by `ℚ`; every numeric literal that
  appears in the claims is a small dyadic rational, on which Python's
  binary floating point arithmetic is exact.
* Strings are ASCII in all the inputs of interest; `str.upper`,
  `str.lower`, `\d`, `\s`, `\b` are modelled by their ASCII meaning.
-/

namespace Osh

/-- Python whitespace (the ASCII part of `str.strip` / regex `\s`). -/
def isPySpace (c : Char) : Bool :=
  c == ' ' || c == '\t' || c == '\n' || c == '\r' || c == '\x0b' || c == '\x0c'

/-- ASCII decimal digit (regex `\d` on the ASCII inputs of interest). -/
def isPyDigit (c : Char) : Bool :=
  '0' ≤ c && c ≤ '9'

/-- Regex word character `[a-zA-Z0-9_]` (ASCII part of `\w`). -/
def isWordChar (c : Char) : Bool :=
  ('a' ≤ c && c ≤ 'z') || ('A' ≤ c && c ≤ 'Z') || isPyDigit c || c == '_'

/-- Python `str.strip()` on a character list. -/
def pyStripChars (cs : List Char) : List Char :=
  ((cs.dropWhile isPySpace).reverse.dropWhile isPySpace).reverse

/-- Python `str.upper()` (ASCII). -/
def pyUpper (s : String) : String :=
  ⟨s.data.map Char.toUpper⟩

/-- Python `str.lower()` (ASCII). -/
def pyLower (cs : List Char) : List Char :=
  cs.map Char.toLower

/-- `string_utils.emptystring`: true for `None`, empty, or whitespace-only. -/
def emptystring (s : Option String) : Bool :=
  match s with
  | none => true
  | some str => (pyStripChars str.data).length == 0

/-- Parsed view of an on-disk file.  `parsed = some kvs` means the file's
JSON/YAML parser yields the mapping `kvs`; `parsed = none` means the
parser raises.  `envPairs` is the file's `KEY=VALUE` content when it is
read as a dotenv file. -/
structure FileData where
  parsed : Option (List (String × String))
  envPairs : List (String × String)
deriving DecidableEq

/-- Explicit file-system state: regular files and directory listings
(immediate children, as bare file names). -/
structure FS where
  files : List (String × FileData)
  dirs : List (String × List String)
deriving DecidableEq

/-- `path_utils.file_exists` (without the `check_empty` option). -/
def file_exists (fs : FS) (p : String) : Bool :=
  (fs.files.lookup p).isSome

/-- `path_utils.dir_exists` (without the `check_empty` option). -/
def dir_exists (fs : FS) (p : String) : Bool :=
  (fs.dirs.lookup p).isSome

/-- `logging_utils.check`: raises `SystemExit` with the decorated message
when the condition fails. -/
def check (condition : Bool) (msg : String) : Except String Unit :=
  if condition then .ok () else .error (msg ++ " (error code: 1)")

/-- `path_utils.checkfile` (with `check_empty=False`). -/
def checkfile (fs : FS) (filepath : String) (msg : String) : Except String Unit :=
  check (file_exists fs filepath) (msg ++ " File '" ++ filepath ++ "' does not exist.")

/-- Python's `os.path.basename` on a normalized path. -/
def basenameOf (p : String) : String :=
  match (p.data.splitOn '/').getLast? with
  | some b => ⟨b⟩
  | none => p

/-- The extension component of `path_utils.folder_name_ext`: empty for a
directory, otherwise everything after the first dot of the basename. -/
def extOf (fs : FS) (p : String) : String :=
  if dir_exists fs p then ""
  else
    let b := (basenameOf p).data
    if b.contains '.' then ⟨(b.dropWhile (· ≠ '.')).drop 1⟩ else ""

/-- Substring test (Python's `in` on strings). -/
def strContains (hay needle : List Char) : Bool :=
  match hay with
  | [] => needle.isEmpty
  | _ :: t => needle.isPrefixOf hay || strContains t needle

/-- `config_utils.valid_config_file`.  NOTE: faithful to the source, which
calls `checkfile(f"Configuration file for {config_type} does not exist:
{a_path}")`, i.e. passes the log message in the `filepath` position. -/
def valid_config_file (fs : FS) (a_path : String) (keys : List String)
    (config_type : String) : Except String (Option (List (String × String))) := do
  checkfile fs ("Configuration file for " ++ config_type ++ " does not exist: " ++ a_path) ""
  let ext := (pyLower (extOf fs a_path).data).asString
  match fs.files.lookup a_path with
  | none => Except.error ("FileNotFoundError: " ++ a_path)
  | some fd =>
    let isJson := strContains ext.data "json".data
    let isYaml := strContains ext.data "yaml".data || strContains ext.data "yml".data
    if isJson || isYaml then
      match fd.parsed with
      | none => Except.error ("parse error: " ++ a_path)
      | some kvs =>
        if keys.all (fun k => (kvs.lookup k).isSome) then
          pure (some kvs)
        else
          pure none
    else
      pure none

/-- `*` matching: try the continuation on every suffix of the name. -/
def globStar (k : List Char → Bool) : List Char → Bool
  | [] => k []
  | c :: ns => k (c :: ns) || globStar k ns

/-- `fnmatch`-style glob matching for the patterns used here (literal
characters and `*`). -/
def globMatch : List Char → List Char → Bool
  | [], name => name.isEmpty
  | '*' :: ps, name => globStar (globMatch ps) name
  | _ :: _, [] => false
  | p :: ps, c :: ns => p == c && globMatch ps ns

/-- `glob.glob(join(dir, pat))`: matching immediate children of `dir`,
hidden files excluded (the pattern does not start with a dot), each
result prefixed with the directory path. -/
def globDir (fs : FS) (dir : String) (pat : String) : List String :=
  let children := (fs.dirs.lookup dir).getD []
  (children.filter fun n =>
      !(n.data.headD ' ' == '.') && globMatch pat.data n.data).map
    fun n => dir ++ "/" ++ n

/-- Insertion into a ≤-sorted list of strings. -/
def insSorted (x : String) : List String → List String
  | [] => [x]
  | y :: ys => if x ≤ y then x :: y :: ys else y :: insSorted x ys

/-- Python `sorted` on strings (ascending lexicographic). -/
def sortStrings (l : List String) : List String :=
  l.foldr insSorted []

/-- The directory-candidate loop of `config_from_files`: test candidates
in order, return the first validating one. -/
def firstValid (fs : FS) (keys : List String) (config_type : String) :
    List String → Except String (Option (List (String × String)))
  | [] => pure none
  | c :: rest => do
    match ← valid_config_file fs c keys config_type with
    | some cfg => pure (some cfg)
    | none => firstValid fs keys config_type rest

/-- The glob patterns built by `config_from_files`.  Faithful to the
source bug: `f"*.{fmt.upper()}"` with `fmt = "*.json"` yields `*.*.JSON`. -/
def configFormats : List String :=
  let base := ["*.json", "*.yaml", "*.yml"]
  base ++ base.map (fun fmt => "*." ++ pyUpper fmt)

/-- `config_from_files` (inner function of `config_utils.get_config`). -/
def config_from_files (fs : FS) (path : String) (keys : List String)
    (config_type : String) : Except String (Option (List (String × String))) := do
  let r1 ← if file_exists fs path then valid_config_file fs path keys config_type
           else pure none
  match r1 with
  | some c => pure (some c)
  | none =>
    if dir_exists fs path then
      let candidates := configFormats.foldl (fun acc fmt => acc ++ globDir fs path fmt) []
      firstValid fs keys config_type (sortStrings candidates)
    else
      pure none

/-- The key-collection loop of `config_from_env`: returns the collected
`(key, value)` pairs and the missing keys, in request order. -/
def envScan (env : List (String × String)) : List String →
    List (String × String) × List String
  | [] => ([], [])
  | k :: ks =>
    let (c, m) := envScan env ks
    match env.lookup (pyUpper k) with
    | some v => ((k, v) :: c, m)
    | none =>
      match env.lookup k with
      | some v => ((k, v) :: c, m)
      | none => (c, k :: m)

/-- `config_from_env` (inner function of `config_utils.get_config`). -/
def config_from_env (env : List (String × String)) (keys : List String) :
    Option (List (String × String)) :=
  let (config, missing) := envScan env keys
  if missing.isEmpty then some config else none

/-- `dotenv.load_dotenv` with its default `override=False`: merge the
file's pairs into the environment without overwriting existing keys. -/
def load_dotenv (env : List (String × String)) (pairs : List (String × String)) :
    List (String × String) :=
  pairs.foldl (fun e kv => if (e.lookup kv.1).isSome then e else e ++ [kv]) env

/-- Steps 2–4 of `get_config`: merge the existing env files into the
environment, then resolve from environment variables, else fail. -/
def envPhase (fs : FS) (env : List (String × String)) (keys : List String)
    (config_type : String) (env_files : List String) :
    Except String (List (String × String)) :=
  let env2 := env_files.foldl
    (fun e f =>
      if file_exists fs f then
        load_dotenv e (((fs.files.lookup f).getD ⟨none, []⟩).envPairs)
      else e)
    env
  match config_from_env env2 keys with
  | some c => Except.ok c
  | none => Except.error ("Missing required keys for '" ++ config_type ++
      "' configuration in files, .env files, or environment variables." ++ " (error code: 1)")

/-- `config_utils.get_config`. -/
def get_config (fs : FS) (env : List (String × String)) (keys : List String)
    (config_type : String) (path : Option String) (env_files : List String) :
    Except String (List (String × String)) := do
  let step1 : Option (List (String × String)) ←
    if !emptystring path then
      match path with
      | some p => config_from_files fs p keys config_type
      | none => pure none
    else
      pure none
  match step1 with
  | some c => pure c
  | none => envPhase fs env keys config_type env_files

/-- Fuel-driven decimal printer: the fuel only bounds the recursion
depth (one step per digit), it never changes the output when it is at
least `n + 1`. -/
def natDigitsAux : Nat → Nat → List Char
  | 0, _ => []
  | fuel + 1, n =>
    if n < 10 then [Nat.digitChar n]
    else natDigitsAux fuel (n / 10) ++ [Nat.digitChar (n % 10)]

/-- Decimal digit characters of a natural number (Python `str(int)`,
also the f-string rendering `f"{n}"`). -/
def natDigits (n : Nat) : List Char :=
  natDigitsAux (n + 1) n

/-- The ten decimal digit characters. -/
def digitChars : List Char :=
  ['0', '1', '2', '3', '4', '5', '6', '7', '8', '9']

/-- `f"{n}"` as a string. -/
def natStr (n : Nat) : String :=
  ⟨natDigits n⟩

/-- Days-since-epoch to civil (year, month, day), the standard era-based
calendar conversion performed by C `gmtime` for non-negative times. -/
def civilFromDays (z0 : Nat) : Nat × Nat × Nat :=
  let z := z0 + 719468
  let era := z / 146097
  let doe := z % 146097
  let yoe := (doe - doe / 1460 + doe / 36524 - doe / 146096) / 365
  let doy := doe - (365 * yoe + yoe / 4 - yoe / 100)
  let mp := (5 * doy + 2) / 153
  let d := doy - (153 * mp + 2) / 5 + 1
  let m := if mp < 10 then mp + 3 else mp - 9
  let y := yoe + era * 400 + (if m ≤ 2 then 1 else 0)
  (y, m, d)

/-- The fields of `time.gmtime` used by `time2str`. -/
structure TmStruct where
  tm_mday : Nat
  tm_hour : Nat
  tm_min : Nat
  tm_sec : Nat
deriving DecidableEq

/-- `time.gmtime` on a non-negative whole number of seconds. -/
def gmtime (s : Nat) : TmStruct :=
  { tm_mday := (civilFromDays (s / 86400)).2.2
    tm_hour := s / 3600 % 24
    tm_min := s / 60 % 60
    tm_sec := s % 60 }

/-- `" ".join(parts)` on character lists. -/
def joinSpace : List (List Char) → List Char
  | [] => []
  | [p] => p
  | p :: ps => p ++ ' ' :: joinSpace ps

/-- `misc_utils.time2str` producing a character list; seconds restricted
to non-negative integers (every claim input is one). -/
def time2strChars (seconds : Nat) (no_space : Bool) : List Char :=
  let t := gmtime seconds
  let hrs := t.tm_hour + (t.tm_mday - 1) * 24
  let parts : List (List Char) :=
    (if hrs ≠ 0 then [natDigits hrs ++ (" hr").data] else []) ++
    (if t.tm_min ≠ 0 then [natDigits t.tm_min ++ (" min").data] else []) ++
    (if t.tm_sec ≠ 0 ∨ (hrs = 0 ∧ t.tm_min = 0) then [natDigits t.tm_sec ++ (" sec").data] else [])
  let parts := if no_space then parts.map (fun p => p.filter (fun c => c ≠ ' ')) else parts
  joinSpace parts

/-- `misc_utils.time2str`. -/
def time2str (seconds : Nat) (no_space : Bool) : String :=
  ⟨time2strChars seconds no_space⟩

/-- The parts of the formatted duration as the specification states
them, from the floor formulas `hours = ⌊s/3600⌋`,
`minutes = ⌊(s mod 3600)/60⌋`, `seconds = ⌊s mod 60⌋` (for comparison
with `time2str`, which computes them through `gmtime`). -/
def specParts (s : Nat) : List (List Char) :=
  (if s / 3600 ≠ 0 then [natDigits (s / 3600) ++ (" hr").data] else []) ++
  (if s % 3600 / 60 ≠ 0 then [natDigits (s % 3600 / 60) ++ (" min").data] else []) ++
  (if s % 60 ≠ 0 ∨ (s / 3600 = 0 ∧ s % 3600 / 60 = 0) then
    [natDigits (s % 60) ++ (" sec").data] else [])

/-- Value of a run of decimal digit characters. -/
def digitsVal (ds : List Char) : Nat :=
  ds.foldl (fun a c => 10 * a + (c.toNat - 48)) 0

/-- Python `float` applied to a regex group of shape `\d+` or `\d+.\d+`
(always succeeds there); the value is exact in `ℚ`. -/
def numVal (cs : List Char) : ℚ :=
  let intPart := cs.takeWhile (· ≠ '.')
  match cs.dropWhile (· ≠ '.') with
  | [] => (digitsVal intPart : ℚ)
  | _ :: fracs => (digitsVal intPart : ℚ) + (digitsVal fracs : ℚ) / (10 : ℚ) ^ fracs.length

/-- After the numeric part of the pattern `(\d+(?:\.\d+)?)\s*UNIT\b`:
greedily skip whitespace, require the literal unit, then a word
boundary.  Returns the text after the match. -/
def afterNum (u : List Char) (tail : List Char) : Option (List Char) :=
  let t := tail.dropWhile isPySpace
  if u.isPrefixOf t then
    let rest := t.drop u.length
    match rest with
    | [] => some rest
    | c :: _ => if isWordChar c then none else some rest
  else none

/-- Pair a successful unit match with the numeric group it follows. -/
def tryUnit (u : List Char) (num : List Char) (tail : List Char) :
    Option (List Char × List Char) :=
  match afterNum u tail with
  | some r => some (num, r)
  | none => none

/-- Attempt to match `(\d+(?:\.\d+)?)\s*UNIT\b` at the start of `cs`,
with the regex engine's greedy/backtracking behavior on the optional
fraction group.  Returns (matched numeric group, text after match). -/
def matchHere (u : List Char) (cs : List Char) : Option (List Char × List Char) :=
  let ds := cs.takeWhile isPyDigit
  if ds.isEmpty then none
  else
    match cs.dropWhile isPyDigit with
    | c :: cs2 =>
      if c = '.' then
        let fracs := cs2.takeWhile isPyDigit
        if fracs.isEmpty then tryUnit u ds (c :: cs2)
        else
          match tryUnit u (ds ++ '.' :: fracs) (cs2.dropWhile isPyDigit) with
          | some x => some x
          | none => tryUnit u ds (c :: cs2)
      else tryUnit u ds (c :: cs2)
    | [] => tryUnit u ds []

/-- `re.search` for the unit pattern: leftmost match.  Returns
(text before match, matched numeric group, text after match); removing
the match (`re.sub(..., count=1)`) leaves `pre ++ post`. -/
def searchFrom (u : List Char) : List Char → Option (List Char × List Char × List Char)
  | [] => none
  | c :: cs =>
    match matchHere u (c :: cs) with
    | some (num, post) => some ([], num, post)
    | none =>
      match searchFrom u cs with
      | some (pre, num, post) => some (c :: pre, num, post)
      | none => none

/-- The `time_units` table of `str2time`, flattened in Python's
iteration order (dict insertion order, then tuple order). -/
def timeUnits : List (List Char × ℚ) :=
  [("days".data, 86400), ("day".data, 86400), ("d".data, 86400),
   ("hours".data, 3600), ("hour".data, 3600), ("hrs".data, 3600),
   ("hr".data, 3600), ("h".data, 3600),
   ("minutes".data, 60), ("minute".data, 60), ("mins".data, 60),
   ("min".data, 60), ("m".data, 60),
   ("seconds".data, 1), ("second".data, 1), ("secs".data, 1),
   ("sec".data, 1), ("s".data, 1)]

/-- The unit-scanning loop of `str2time`: for each unit spelling, search
once, accumulate `value * multiplier`, remove the matched substring and
strip.  Returns (total, remaining, found_unit). -/
def unitLoop : List (List Char × ℚ) → List Char → ℚ → Bool → ℚ × List Char × Bool
  | [], remaining, total, found => (total, remaining, found)
  | (u, mult) :: rest, remaining, total, found =>
    match searchFrom u remaining with
    | some (pre, num, post) =>
      unitLoop rest (pyStripChars (pre ++ post)) (total + numVal num * mult) true
    | none => unitLoop rest remaining total found

/-- Python `float(s)` on finite numeric literals
(`[ws] [sign] (digits [. digits] | . digits) [e [sign] digits] [ws]`);
`none` models `ValueError`.  (The non-finite literals `inf`/`nan` are
outside the claims and not representable in `ℚ`.) -/
def pyFloatQ (cs0 : List Char) : Option ℚ :=
  let cs := pyStripChars cs0
  let (sgn, cs) : ℚ × List Char :=
    match cs with
    | '+' :: t => (1, t)
    | '-' :: t => (-1, t)
    | t => (1, t)
  let ip := cs.takeWhile isPyDigit
  let cs := cs.dropWhile isPyDigit
  let (fp, cs) : List Char × List Char :=
    match cs with
    | '.' :: t => (t.takeWhile isPyDigit, t.dropWhile isPyDigit)
    | t => ([], t)
  if ip.isEmpty && fp.isEmpty then none
  else
    let mant : ℚ := (digitsVal ip : ℚ) + (digitsVal fp : ℚ) / (10 : ℚ) ^ fp.length
    match cs with
    | [] => some (sgn * mant)
    | e :: t =>
      if e == 'e' || e == 'E' then
        let (esgn, t) : Bool × List Char :=
          match t with
          | '+' :: r => (true, r)
          | '-' :: r => (false, r)
          | r => (true, r)
        let ed := t.takeWhile isPyDigit
        if ed.isEmpty || !(t.dropWhile isPyDigit).isEmpty then none
        else if esgn then some (sgn * mant * (10 : ℚ) ^ (digitsVal ed))
        else some (sgn * mant / (10 : ℚ) ^ (digitsVal ed))
      else none

/-- Result of `str2time`: the returned seconds and the messages passed
to `logging.error` (which logs and returns, it does not raise). -/
structure TimeResult where
  value : ℚ
  logs : List String
deriving DecidableEq

/-- `misc_utils.str2time` on a character list. -/
def str2timeCore (input : List Char) : TimeResult :=
  if input.isEmpty then ⟨0, []⟩
  else
    let s := pyLower (pyStripChars input)
    if s.contains ':' then
      match (s.splitOn ':').mapM pyFloatQ with
      | none => ⟨0, ["Invalid time format: " ++ (⟨s⟩ : String)]⟩
      | some parts =>
        match parts with
        | [a, b, c] => ⟨a * 3600 + b * 60 + c, []⟩
        | [a, b] => ⟨a * 60 + b, []⟩
        | _ => ⟨0, ["Invalid time format: " ++ (⟨s⟩ : String) ++ " - expected 2 or 3 parts"]⟩
    else
      let r := unitLoop timeUnits s 0 false
      if r.2.2 then ⟨r.1, []⟩
      else
        match pyFloatQ s with
        | some v => ⟨v, []⟩
        | none => ⟨0, ["Cannot parse time from: " ++ (⟨s⟩ : String)]⟩

/-- `misc_utils.str2time`. -/
def str2time (input : String) : TimeResult :=
  str2timeCore input.data

/-- A directory holding one JSON and one YAML candidate, each containing
the single requested key `k` — the scenario of the determinism claim. -/
def fsC1 : FS :=
  { files := [("/cfg/a.json", ⟨some [("k", "1")], []⟩),
              ("/cfg/b.yaml", ⟨some [("k", "2")], []⟩)]
    dirs := [("/cfg", ["a.json", "b.yaml"])] }

/-- A file system with one valid YAML config file. -/
def fsC2 : FS :=
  { files := [("/cfg2/good.yaml", ⟨some [("host", "localhost"), ("port", "5432")], []⟩)]
    dirs := [("/cfg2", ["good.yaml"])] }

/-- The collected pairs of `envScan` under the all-found hypothesis. -/
def envPick (env : List (String × String)) (k : String) : String × String :=
  (k, match env.lookup (pyUpper k) with
      | some v => v
      | none => (env.lookup k).getD "")

theorem envScan_found (env : List (String × String)) (keys : List String)
    (h : ∀ k ∈ keys, (env.lookup (pyUpper k)).isSome ∨ (env.lookup k).isSome) :
    envScan env keys = (keys.map (envPick env), []) := by
  induction keys with
  | nil => rfl
  | cons k ks ih =>
    have hk := h k (List.mem_cons_self k ks)
    have hih := ih (fun x hx => h x (List.mem_cons_of_mem k hx))
    simp only [envScan, hih, envPick, List.map]
    rcases h1 : env.lookup (pyUpper k) with _ | v
    · rcases h2 : env.lookup k with _ | w
      · rw [h1, h2] at hk
        simp at hk
      · simp
    · simp

theorem envScan_missing (env : List (String × String)) (keys : List String)
    (k : String) (hk : k ∈ keys)
    (h1 : env.lookup (pyUpper k) = none) (h2 : env.lookup k = none) :
    (envScan env keys).2 ≠ [] := by
  induction keys with
  | nil => cases hk
  | cons x xs ih =>
    simp only [envScan]
    rcases List.mem_cons.mp hk with h | h
    · subst h
      rw [h1, h2]
      simp
    · rcases hx1 : env.lookup (pyUpper x) with _ | v
      · rcases hx2 : env.lookup x with _ | w
        · simp
        · exact ih h
      · exact ih h

/-- Claim C3: the environment step of `get_config` looks up the
upper-cased key name; the claim as stated omits the fall-back lookup of
the key under its original spelling, so the success condition is
"upper-cased name present OR original name present", not just the
former.  This theorem proves the amended statement: the step succeeds
iff every requested key is found under its upper-cased or original
name, preferring the upper-cased one, and on success the returned
mapping uses the originally requested key names. -/
theorem config_from_env_amended (env : List (String × String)) (keys : List String) :
    ((∀ k ∈ keys, (env.lookup (pyUpper k)).isSome ∨ (env.lookup k).isSome) →
      config_from_env env keys = some (keys.map (envPick env))) ∧
    (∀ k ∈ keys, env.lookup (pyUpper k) = none → env.lookup k = none →
      config_from_env env keys = none) := by
  constructor
  · intro h
    unfold config_from_env
    rw [envScan_found env keys h]
    rfl
  · intro k hk h1 h2
    unfold config_from_env
    have := envScan_missing env keys k hk h1 h2
    rcases hs : envScan env keys with ⟨c, m⟩
    rw [hs] at this
    simp only at this ⊢
    rcases m with _ | ⟨a, m⟩
    · exact absurd rfl this
    · simp

/-- Witness for C3's amended theorem: the environment `API_KEY=x`
satisfies a request for key `api_key`, returned under the original
lower-case name. -/
theorem config_from_env_amended_witness :
    config_from_env [("API_KEY", "x")] ["api_key"] = some [("api_key", "x")] := by
  have h := (config_from_env_amended [("API_KEY", "x")] ["api_key"]).1 (by decide)
  exact h.trans (by decide)

/-- Counterexample to claim C3 as stated: with the environment holding
only the original-case name `api_key` (upper-cased `API_KEY` absent),
the claim says the environment step yields no result, but the code
succeeds through its original-case fall-back lookup. -/
theorem config_from_env_counterexample :
    config_from_env [("api_key", "v")] ["api_key"] = some [("api_key", "v")] ∧
    List.lookup (pyUpper "api_key") [("api_key", "v")] = none := by decide

/-- Claim C1 (code bug): on a directory with candidates `a.json` and
`b.yaml` that both contain the requested key, the resolver should
return the mapping of the lexicographically first candidate
(`{"k": "1"}` from `a.json`); instead `valid_config_file` passes its
log message to `checkfile` in the file-path position, the message is
not an existing file, and the call raises `SystemExit`. -/
theorem config_from_files_dir_raises :
    config_from_files fsC1 "/cfg" ["k"] "db" =
      Except.error " File 'Configuration file for db does not exist: /cfg/a.json' does not exist. (error code: 1)" := by
  with_unfolding_all rfl

/-- Claim C2 (code bug): `valid_config_file` never returns `None` for a
missing path — it raises `SystemExit` (via `checkfile`, which receives
the log message as the path to check), and it raises in the same way
even for an existing, fully valid configuration file. -/
theorem valid_config_file_raises :
    valid_config_file fsC2 "/missing.json" ["host"] "database" =
      Except.error " File 'Configuration file for database does not exist: /missing.json' does not exist. (error code: 1)" ∧
    valid_config_file fsC2 "/cfg2/good.yaml" ["host", "port"] "database" =
      Except.error " File 'Configuration file for database does not exist: /cfg2/good.yaml' does not exist. (error code: 1)" := by
  exact ⟨rfl, rfl⟩

/-- Claim C10: a `None`, empty, or whitespace-only `path` makes
`get_config` skip the explicit-path source entirely and proceed to the
env-file merge and environment lookup (`envPhase`); a whitespace-only
path behaves exactly like passing no path. -/
theorem get_config_blank_path (fs : FS) (env : List (String × String))
    (keys : List String) (config_type : String) (env_files : List String) :
    get_config fs env keys config_type none env_files =
      envPhase fs env keys config_type env_files ∧
    get_config fs env keys config_type (some "") env_files =
      envPhase fs env keys config_type env_files ∧
    get_config fs env keys config_type (some "   ") env_files =
      envPhase fs env keys config_type env_files := by
  exact ⟨rfl, rfl, rfl⟩

/-- Claim C4: the input dialects of `str2time`.  A trimmed lower-case
input containing `:` whose colon-separated parts all parse as floats
yields `H*3600 + M*60 + S` for exactly three parts and `M*60 + S` for
exactly two; and the five concrete dialect examples evaluate as
specified. -/
theorem str2time_dialects :
    (∀ (s : String) (a b c : ℚ),
      pyStripChars s.data = s.data → pyLower s.data = s.data →
      s.data.contains ':' = true →
      (s.data.splitOn ':').mapM pyFloatQ = some [a, b, c] →
      str2time s = ⟨a * 3600 + b * 60 + c, []⟩) ∧
    (∀ (s : String) (a b : ℚ),
      pyStripChars s.data = s.data → pyLower s.data = s.data →
      s.data.contains ':' = true →
      (s.data.splitOn ':').mapM pyFloatQ = some [a, b] →
      str2time s = ⟨a * 60 + b, []⟩) ∧
    str2time "1:30:00" = ⟨5400, []⟩ ∧
    str2time "1:30" = ⟨90, []⟩ ∧
    str2time "120" = ⟨120, []⟩ ∧
    str2time "1 hr 30 min" = ⟨5400, []⟩ ∧
    str2time "1.5 days" = ⟨129600, []⟩ := by
  refine ⟨?_, ?_, by with_unfolding_all rfl, by with_unfolding_all rfl,
    by with_unfolding_all rfl, by with_unfolding_all rfl, by with_unfolding_all rfl⟩
  · intro s a b c hstrip hlow hcolon hparts
    have hne : s.data.isEmpty = false := by
      cases hd : s.data with
      | nil => rw [hd] at hcolon; simp [List.contains] at hcolon
      | cons x xs => simp
    unfold str2time str2timeCore
    rw [hne, hstrip, hlow]
    simp only [Bool.false_eq_true, if_false, hcolon, if_true, hparts]
  · intro s a b hstrip hlow hcolon hparts
    have hne : s.data.isEmpty = false := by
      cases hd : s.data with
      | nil => rw [hd] at hcolon; simp [List.contains] at hcolon
      | cons x xs => simp
    unfold str2time str2timeCore
    rw [hne, hstrip, hlow]
    simp only [Bool.false_eq_true, if_false, hcolon, if_true, hparts]

/-- Witness for C4: the three-part colon dialect at `"1:30:00"`. -/
theorem str2time_dialects_witness :
    str2time "1:30:00" = ⟨(1 : ℚ) * 3600 + 30 * 60 + 0, []⟩ :=
  str2time_dialects.1 "1:30:00" 1 30 0 (by decide) (by decide) (by decide)
    (by with_unfolding_all rfl)

/-- Counterexample to claim C5 as stated: `str2time "not a time"` does
not raise — it logs the unparseable input and returns `0.0`, so a
non-empty unparseable input does produce `0.0`. -/
theorem str2time_unparseable_counterexample :
    str2time "not a time" = ⟨0, ["Cannot parse time from: not a time"]⟩ := by
  with_unfolding_all rfl

/-- Claim C5 amended: empty input returns `0.0` with nothing logged;
whitespace-only input returns `0.0` after logging; and every non-empty
input that matches no colon dialect, no unit pattern, and no bare
float returns `0.0` after logging the unparseable input (`str2time`
never raises). -/
theorem str2time_unparseable_amended :
    str2time "" = ⟨0, []⟩ ∧
    str2time "   " = ⟨0, ["Cannot parse time from: "]⟩ ∧
    (∀ s : String, s.data ≠ [] →
      (pyLower (pyStripChars s.data)).contains ':' = false →
      (unitLoop timeUnits (pyLower (pyStripChars s.data)) 0 false).2.2 = false →
      pyFloatQ (pyLower (pyStripChars s.data)) = none →
      str2time s =
        ⟨0, ["Cannot parse time from: " ++ (⟨pyLower (pyStripChars s.data)⟩ : String)]⟩) := by
  refine ⟨by with_unfolding_all rfl, by with_unfolding_all rfl, ?_⟩
  intro s hne hcolon hloop hfloat
  have hne' : s.data.isEmpty = false := by
    cases hd : s.data with
    | nil => exact absurd hd hne
    | cons x xs => simp
  unfold str2time str2timeCore
  rw [hne']
  simp only [Bool.false_eq_true, if_false, hcolon, hloop, hfloat]

/-- Witness for C5's amended theorem at the unparseable input
`"not a time"`. -/
theorem str2time_unparseable_witness :
    str2time "not a time" = ⟨0, ["Cannot parse time from: " ++
      (⟨pyLower (pyStripChars ("not a time" : String).data)⟩ : String)]⟩ :=
  str2time_unparseable_amended.2.2 "not a time" (by decide) (by decide) (by decide) (by decide)

/-- Counterexample to claim C6: the input `"5 min 10 min"` repeats the
minute unit, yet `str2time` flags nothing — it returns `300.0` (only
the first occurrence) with no error logged. -/
theorem str2time_duplicate_counterexample :
    str2time "5 min 10 min" = ⟨300, []⟩ := by with_unfolding_all rfl

/-- Claim C6 amended: each unit *spelling* is searched exactly once, so
a second occurrence matchable only by an already-consumed spelling is
silently dropped (`"10 min 5 min"` gives `600.0`), while occurrences
using two different spellings of the same unit are both counted and
summed (`"1 hr 2 hours"` gives `10800.0`); no ambiguity error exists. -/
theorem str2time_duplicate_amended :
    str2time "10 min 5 min" = ⟨600, []⟩ ∧
    str2time "1 hr 2 hours" = ⟨10800, []⟩ := by
  exact ⟨by with_unfolding_all rfl, by with_unfolding_all rfl⟩

/-- Counterexample to claim C9: in compact mode the space inside each
part is removed but the parts are still joined by `" ".join`, so
`time2str(61, no_space=True)` is `"1min 1sec"`, not `"1min1sec"`. -/
theorem time2str_compact_counterexample :
    time2str 61 true = "1min 1sec" ∧ ("1min 1sec" : String) ≠ "1min1sec" :=
  ⟨rfl, by decide⟩

/-- Claim C9 amended: `time2str(61, no_space=True)` returns
`"1min 1sec"` — compact mode strips the space between number and unit
within each part, while distinct parts remain separated by a space. -/
theorem time2str_compact_amended : time2str 61 true = "1min 1sec" := rfl

/-- Counterexample to claim C7: at 2678400 seconds (31 days) we have
`floor(seconds/3600) = 744 > 0`, so the claim requires a `"744 hr"`
part, but `time2str` derives hours from `gmtime`'s `tm_mday`/`tm_hour`,
which wrap at month boundaries, and outputs `"0 sec"`. -/
theorem time2str_formula_counterexample :
    time2str 2678400 false = "0 sec" ∧ 2678400 / 3600 = 744 :=
  ⟨rfl, rfl⟩

theorem natDigitsAux_fuel :
    ∀ f1 : Nat, ∀ f2 n : Nat, n < f1 → n < f2 → natDigitsAux f1 n = natDigitsAux f2 n := by
  intro f1
  induction f1 with
  | zero => intro f2 n h1 _; omega
  | succ f ih =>
    intro f2 n h1 h2
    cases f2 with
    | zero => omega
    | succ g =>
      simp only [natDigitsAux]
      by_cases h10 : n < 10
      · simp [h10]
      · simp only [h10, if_false]
        rw [ih g (n / 10) (by omega) (by omega)]

theorem natDigitsAux_succ (f n : Nat) :
    natDigitsAux (f + 1) n = if n < 10 then [Nat.digitChar n]
      else natDigitsAux f (n / 10) ++ [Nat.digitChar (n % 10)] := rfl

theorem natDigits_eq (n : Nat) :
    natDigits n = if n < 10 then [Nat.digitChar n]
      else natDigits (n / 10) ++ [Nat.digitChar (n % 10)] := by
  unfold natDigits
  rw [natDigitsAux_succ]
  by_cases h : n < 10
  · simp [h]
  · simp only [h, if_false]
    rw [natDigitsAux_fuel n (n / 10 + 1) (n / 10) (by omega) (by omega)]

theorem digitChar_mem_digitChars : ∀ k, k < 10 → Nat.digitChar k ∈ digitChars := by decide

theorem natDigits_dg (n : Nat) : ∀ c ∈ natDigits n, c ∈ digitChars := by
  induction n using Nat.strong_induction_on with
  | _ n ih =>
    rw [natDigits_eq]
    by_cases h : n < 10
    · simp only [h, if_true, List.mem_singleton]
      intro c hc
      subst hc
      exact digitChar_mem_digitChars n h
    · simp only [h, if_false]
      intro c hc
      rcases List.mem_append.mp hc with h1 | h1
      · exact ih (n / 10) (by omega) c h1
      · rw [List.mem_singleton] at h1
        subst h1
        exact digitChar_mem_digitChars _ (by omega)

theorem natDigits_ne_nil (n : Nat) : natDigits n ≠ [] := by
  rw [natDigits_eq]
  by_cases h : n < 10 <;> simp [h]

theorem digitsVal_append_singleton (xs : List Char) (c : Char) :
    digitsVal (xs ++ [c]) = 10 * digitsVal xs + (c.toNat - 48) := by
  simp [digitsVal, List.foldl_append]

theorem digitChar_val : ∀ k, k < 10 → (Nat.digitChar k).toNat - 48 = k := by decide

theorem digitsVal_natDigits (n : Nat) : digitsVal (natDigits n) = n := by
  induction n using Nat.strong_induction_on with
  | _ n ih =>
    rw [natDigits_eq]
    by_cases h : n < 10
    · simp only [h, if_true]
      have : digitsVal [Nat.digitChar n] = (Nat.digitChar n).toNat - 48 := by
        simp [digitsVal]
      rw [this, digitChar_val n h]
    · simp only [h, if_false, digitsVal_append_singleton]
      rw [ih (n / 10) (by omega), digitChar_val (n % 10) (by omega)]
      omega

theorem dg_isPyDigit : ∀ c ∈ digitChars, isPyDigit c = true := by decide

theorem dg_not_space : ∀ c ∈ digitChars, isPySpace c = false := by decide

theorem dg_ne_dot : ∀ c ∈ digitChars, c ≠ '.' := by decide

theorem dg_toLower : ∀ c ∈ digitChars, c.toLower = c := by decide

theorem takeWhile_append_all {α : Type} {p : α → Bool} :
    ∀ xs ys : List α, (∀ c ∈ xs, p c = true) →
      (xs ++ ys).takeWhile p = xs ++ ys.takeWhile p := by
  intro xs
  induction xs with
  | nil => intro ys _; rfl
  | cons x xs ih =>
    intro ys h
    have hx : p x = true := h x (List.mem_cons_self x xs)
    simp only [List.cons_append, List.takeWhile_cons, hx, if_true]
    rw [ih ys (fun c hc => h c (List.mem_cons_of_mem x hc))]

theorem dropWhile_append_all {α : Type} {p : α → Bool} :
    ∀ xs ys : List α, (∀ c ∈ xs, p c = true) →
      (xs ++ ys).dropWhile p = ys.dropWhile p := by
  intro xs
  induction xs with
  | nil => intro ys _; rfl
  | cons x xs ih =>
    intro ys h
    have hx : p x = true := h x (List.mem_cons_self x xs)
    simp only [List.cons_append, List.dropWhile_cons, hx, if_true]
    exact ih ys (fun c hc => h c (List.mem_cons_of_mem x hc))

theorem takeWhile_head_false {α : Type} {p : α → Bool} :
    ∀ ys : List α, (∀ c, ys.head? = some c → p c = false) → ys.takeWhile p = [] := by
  intro ys h
  cases ys with
  | nil => rfl
  | cons y ys => simp [List.takeWhile_cons, h y rfl]

theorem dropWhile_head_false {α : Type} {p : α → Bool} :
    ∀ ys : List α, (∀ c, ys.head? = some c → p c = false) → ys.dropWhile p = ys := by
  intro ys h
  cases ys with
  | nil => rfl
  | cons y ys => simp [List.dropWhile_cons, h y rfl]

/-- Head condition on the text following a digit run: not a digit, not a
dot (true of `[]` and of every word starting with a space or letter). -/
def headNd (tail : List Char) : Prop :=
  ∀ c, tail.head? = some c → isPyDigit c = false ∧ c ≠ '.'

theorem matchHere_nondigit {u : List Char} {c : Char} {cs : List Char}
    (h : isPyDigit c = false) : matchHere u (c :: cs) = none := by
  simp [matchHere, List.takeWhile_cons, h]

theorem matchHere_digits (u ds tail : List Char)
    (hds : ∀ c ∈ ds, c ∈ digitChars) (hne : ds ≠ []) (ht : headNd tail) :
    matchHere u (ds ++ tail) = (afterNum u tail).map (fun r => (ds, r)) := by
  have hdsd : ∀ c ∈ ds, isPyDigit c = true := fun c hc => dg_isPyDigit c (hds c hc)
  have htake : (ds ++ tail).takeWhile isPyDigit = ds := by
    rw [takeWhile_append_all ds tail hdsd,
      takeWhile_head_false tail (fun c hc => (ht c hc).1), List.append_nil]
  have hdrop : (ds ++ tail).dropWhile isPyDigit = tail := by
    rw [dropWhile_append_all ds tail hdsd,
      dropWhile_head_false tail (fun c hc => (ht c hc).1)]
  have hnemp : ds.isEmpty = false := by
    cases ds with
    | nil => exact absurd rfl hne
    | cons d ds => rfl
  simp only [matchHere]
  rw [htake, hdrop, hnemp]
  simp only [Bool.false_eq_true, if_false]
  cases tail with
  | nil =>
    simp only [tryUnit]
    cases afterNum u [] <;> rfl
  | cons c t =>
    have hc : c ≠ '.' := (ht c rfl).2
    simp only [hc, if_false, tryUnit]
    cases afterNum u (c :: t) <;> rfl

theorem searchFrom_cons_nondigit {u : List Char} {c : Char} {cs : List Char}
    (h : isPyDigit c = false) :
    searchFrom u (c :: cs) = (searchFrom u cs).map (fun x => (c :: x.1, x.2)) := by
  simp only [searchFrom, matchHere_nondigit h]
  cases searchFrom u cs with
  | none => rfl
  | some x => rcases x with ⟨p, n, q⟩; rfl

theorem skipWord (u : List Char) :
    ∀ w cs : List Char, (∀ c ∈ w, isPyDigit c = false) →
      searchFrom u (w ++ cs) = (searchFrom u cs).map (fun x => (w ++ x.1, x.2)) := by
  intro w
  induction w with
  | nil =>
    intro cs _
    rw [List.nil_append]
    cases searchFrom u cs with
    | none => rfl
    | some x => rcases x with ⟨p, n, q⟩; rfl
  | cons c w ih =>
    intro cs h
    have hc : isPyDigit c = false := h c (List.mem_cons_self c w)
    rw [List.cons_append, searchFrom_cons_nondigit hc,
      ih cs (fun x hx => h x (List.mem_cons_of_mem c hx))]
    cases searchFrom u cs with
    | none => rfl
    | some x => rcases x with ⟨p, n, q⟩; rfl

theorem searchFrom_digits_miss (u : List Char) :
    ∀ ds : List Char, ∀ tail : List Char, (∀ c ∈ ds, c ∈ digitChars) → headNd tail →
      afterNum u tail = none →
      searchFrom u (ds ++ tail) = (searchFrom u tail).map (fun x => (ds ++ x.1, x.2)) := by
  intro ds
  induction ds with
  | nil =>
    intro tail _ _ _
    rw [List.nil_append]
    cases searchFrom u tail with
    | none => rfl
    | some x => rcases x with ⟨p, n, q⟩; rfl
  | cons d ds ih =>
    intro tail hds ht hafter
    have hm : matchHere u ((d :: ds) ++ tail) = none := by
      rw [matchHere_digits u (d :: ds) tail hds (by simp) ht, hafter]
      rfl
    rw [List.cons_append] at hm ⊢
    simp only [searchFrom, hm]
    rw [ih tail (fun c hc => hds c (List.mem_cons_of_mem d hc)) ht hafter]
    cases searchFrom u tail with
    | none => rfl
    | some x => rcases x with ⟨p, n, q⟩; rfl

theorem searchFrom_digits_hit (u : List Char) (ds tail r : List Char)
    (hds : ∀ c ∈ ds, c ∈ digitChars) (hne : ds ≠ []) (ht : headNd tail)
    (hafter : afterNum u tail = some r) :
    searchFrom u (ds ++ tail) = some ([], ds, r) := by
  cases ds with
  | nil => exact absurd rfl hne
  | cons d ds =>
    have hm : matchHere u ((d :: ds) ++ tail) = some (d :: ds, r) := by
      rw [matchHere_digits u (d :: ds) tail hds (by simp) ht, hafter]
      rfl
    rw [List.cons_append] at hm ⊢
    simp only [searchFrom, hm]

theorem afterNum_mem {u tail r : List Char} (h : afterNum u tail = some r) :
    ∀ c ∈ u, c ∈ tail := by
  intro c hc
  simp only [afterNum] at h
  by_cases hp : u.isPrefixOf (tail.dropWhile isPySpace) = true
  · have hpre := List.isPrefixOf_iff_prefix.mp hp
    exact (List.dropWhile_sublist isPySpace).subset (hpre.sublist.subset hc)
  · rw [Bool.not_eq_true] at hp
    rw [hp] at h
    simp at h

theorem tryUnit_mem {u num tail : List Char} {x : List Char × List Char}
    (h : tryUnit u num tail = some x) : ∀ c ∈ u, c ∈ tail := by
  unfold tryUnit at h
  cases ha : afterNum u tail with
  | none => rw [ha] at h; exact absurd h (by simp)
  | some r => exact afterNum_mem ha

theorem matchHere_mem {u cs : List Char} {x : List Char × List Char}
    (h : matchHere u cs = some x) : ∀ c ∈ u, c ∈ cs := by
  intro c hc
  simp only [matchHere] at h
  by_cases hemp : (cs.takeWhile isPyDigit).isEmpty = true
  · rw [hemp] at h; simp at h
  · rw [Bool.not_eq_true] at hemp
    rw [hemp] at h
    simp only [Bool.false_eq_true, if_false] at h
    have hsub : (cs.dropWhile isPyDigit).Sublist cs := List.dropWhile_sublist _
    cases hd : cs.dropWhile isPyDigit with
    | nil =>
      rw [hd] at h
      have := tryUnit_mem h c hc
      simp at this
    | cons a t =>
      rw [hd] at h
      dsimp only at h
      by_cases hdot : a = '.'
      · rw [if_pos hdot] at h
        by_cases hfr : (t.takeWhile isPyDigit).isEmpty = true
        · rw [if_pos hfr] at h
          have := tryUnit_mem h c hc
          rw [← hd] at this
          exact hsub.subset this
        · rw [if_neg hfr] at h
          cases h2 : tryUnit u (cs.takeWhile isPyDigit ++ '.' :: t.takeWhile isPyDigit)
              (t.dropWhile isPyDigit) with
          | some y =>
            have hmem := tryUnit_mem h2 c hc
            have h3 : (t.dropWhile isPyDigit).Sublist t := List.dropWhile_sublist _
            have h4 : t.Sublist cs := ((List.tail_sublist (a :: t)).trans
              (by rw [← hd]; exact hsub))
            exact (h3.trans h4).subset hmem
          | none =>
            rw [h2] at h
            have := tryUnit_mem h c hc
            rw [← hd] at this
            exact hsub.subset this
      · rw [if_neg hdot] at h
        have := tryUnit_mem h c hc
        rw [← hd] at this
        exact hsub.subset this

theorem searchFrom_mem {u : List Char} :
    ∀ {cs : List Char} {x : List Char × List Char × List Char},
      searchFrom u cs = some x → ∀ c ∈ u, c ∈ cs := by
  intro cs
  induction cs with
  | nil => intro x h; simp [searchFrom] at h
  | cons a t ih =>
    intro x h c hc
    simp only [searchFrom] at h
    cases hm : matchHere u (a :: t) with
    | some y => exact matchHere_mem hm c hc
    | none =>
      rw [hm] at h
      cases hs : searchFrom u t with
      | none => rw [hs] at h; exact absurd h (by simp)
      | some y =>
        exact List.mem_cons_of_mem a (ih hs c hc)

theorem searchFrom_noMem {u cs : List Char} {c : Char}
    (hcu : c ∈ u) (hccs : c ∉ cs) : searchFrom u cs = none := by
  cases h : searchFrom u cs with
  | none => rfl
  | some x => exact absurd (searchFrom_mem h c hcu) hccs

theorem unitLoop_skip {u : List Char} {mult : ℚ} {us : List (List Char × ℚ)}
    {r : List Char} {t : ℚ} {f : Bool} (h : searchFrom u r = none) :
    unitLoop ((u, mult) :: us) r t f = unitLoop us r t f := by
  simp [unitLoop, h]

theorem unitLoop_hit {u : List Char} {mult : ℚ} {us : List (List Char × ℚ)}
    {r : List Char} {t : ℚ} {f : Bool} {pre num post : List Char}
    (h : searchFrom u r = some (pre, num, post)) :
    unitLoop ((u, mult) :: us) r t f =
      unitLoop us (pyStripChars (pre ++ post)) (t + numVal num * mult) true := by
  simp [unitLoop, h]

theorem takeWhile_all {α : Type} {p : α → Bool} :
    ∀ l : List α, (∀ c ∈ l, p c = true) → l.takeWhile p = l := by
  intro l
  induction l with
  | nil => intro _; rfl
  | cons x xs ih =>
    intro h
    simp only [List.takeWhile_cons, h x (List.mem_cons_self x xs), if_true]
    rw [ih (fun c hc => h c (List.mem_cons_of_mem x hc))]

theorem dropWhile_all {α : Type} {p : α → Bool} :
    ∀ l : List α, (∀ c ∈ l, p c = true) → l.dropWhile p = [] := by
  intro l
  induction l with
  | nil => intro _; rfl
  | cons x xs ih =>
    intro h
    simp only [List.dropWhile_cons, h x (List.mem_cons_self x xs), if_true]
    exact ih (fun c hc => h c (List.mem_cons_of_mem x hc))

theorem numVal_digits {ds : List Char} (h : ∀ c ∈ ds, c ∈ digitChars) :
    numVal ds = (digitsVal ds : ℚ) := by
  have hnd : ∀ c ∈ ds, (fun x => decide ¬x = '.') c = true := by
    intro c hc
    simp [dg_ne_dot c (h c hc)]
  unfold numVal
  rw [takeWhile_all ds hnd, dropWhile_all ds hnd]

theorem pyStrip_cons_space {c : Char} {cs : List Char} (h : isPySpace c = true) :
    pyStripChars (c :: cs) = pyStripChars cs := by
  simp [pyStripChars, List.dropWhile_cons, h]

theorem pyStrip_eq_self {cs : List Char}
    (h1 : ∀ c, cs.head? = some c → isPySpace c = false)
    (h2 : ∀ c, cs.getLast? = some c → isPySpace c = false) :
    pyStripChars cs = cs := by
  unfold pyStripChars
  rw [dropWhile_head_false cs h1]
  rw [dropWhile_head_false cs.reverse (by
    intro c hc
    rw [List.head?_reverse] at hc
    exact h2 c hc)]
  exact List.reverse_reverse cs

theorem contains_eq_false_of_not_mem {c : Char} {cs : List Char} (h : c ∉ cs) :
    cs.contains c = false := by
  induction cs with
  | nil => rfl
  | cons a t ih =>
    simp only [List.contains_cons]
    have hne : (c == a) = false := by
      simp only [beq_eq_false_iff_ne]
      intro he
      exact h (by rw [he]; exact List.mem_cons_self a t)
    rw [hne, ih (fun hm => h (List.mem_cons_of_mem a hm))]
    rfl

theorem pyLower_eq_self {cs : List Char} (h : ∀ c ∈ cs, c.toLower = c) :
    pyLower cs = cs := by
  unfold pyLower
  induction cs with
  | nil => rfl
  | cons a t ih =>
    simp only [List.map_cons, h a (List.mem_cons_self a t)]
    rw [ih (fun c hc => h c (List.mem_cons_of_mem a hc))]

theorem joinSpace_cons_ne_nil {p : List Char} {ps : List (List Char)} (hp : p ≠ []) :
    joinSpace (p :: ps) ≠ [] := by
  cases ps with
  | nil => simpa [joinSpace]
  | cons q qs =>
    simp only [joinSpace, ne_eq, List.append_eq_nil]
    intro hcon
    exact hp hcon.1

theorem mday_small : ∀ d, d < 31 → (civilFromDays d).2.2 = d + 1 := by decide

theorem mday_le (d : Nat) : (civilFromDays d).2.2 ≤ 31 := by
  simp only [civilFromDays]
  omega

/-- For durations below 31 days, `time2str`'s `gmtime`-derived parts are
exactly the specification's floor-formula parts. -/
theorem time2strChars_formula (s : Nat) (nsp : Bool) (hs : s < 2678400) :
    time2strChars s nsp = joinSpace
      (if nsp then (specParts s).map (fun p => p.filter (fun c => c ≠ ' '))
       else specParts s) := by
  simp only [time2strChars, gmtime]
  rw [mday_small (s / 86400) (by omega)]
  rw [show s / 3600 % 24 + (s / 86400 + 1 - 1) * 24 = s / 3600 from by omega]
  rw [show s / 60 % 60 = s % 3600 / 60 from by omega]
  rfl

theorem digits_word_ne_nil (n : Nat) (w : List Char) : natDigits n ++ w ≠ [] := by
  simp [List.append_eq_nil, natDigits_ne_nil n]

theorem dg_ne_space : ∀ c ∈ digitChars, (fun c => decide (c ≠ ' ')) c = true := by decide

theorem digits_word_filter_ne_nil (n : Nat) (w : List Char) :
    (natDigits n ++ w).filter (fun c => decide (c ≠ ' ')) ≠ [] := by
  rw [List.filter_append]
  have h1 : (natDigits n).filter (fun c => decide (c ≠ ' ')) = natDigits n :=
    List.filter_eq_self.mpr (fun c hc => dg_ne_space c (natDigits_dg n c hc))
  rw [h1]
  simp [List.append_eq_nil, natDigits_ne_nil n]

theorem time2strChars_ne_nil (s : Nat) (nsp : Bool) : time2strChars s nsp ≠ [] := by
  simp only [time2strChars, gmtime]
  generalize s / 3600 % 24 + ((civilFromDays (s / 86400)).2.2 - 1) * 24 = H
  generalize s / 60 % 60 = M
  generalize s % 60 = Z
  by_cases hH : H ≠ 0
  · rw [if_pos hH, List.append_assoc, List.singleton_append]
    cases nsp with
    | false =>
      rw [if_neg (by simp)]
      exact joinSpace_cons_ne_nil (digits_word_ne_nil H (" hr").data)
    | true =>
      rw [if_pos rfl, List.map_cons]
      exact joinSpace_cons_ne_nil (digits_word_filter_ne_nil H (" hr").data)
  · rw [not_not] at hH
    subst hH
    rw [if_neg (show ¬((0 : Nat) ≠ 0) from by simp), List.nil_append]
    by_cases hM : M ≠ 0
    · rw [if_pos hM, List.singleton_append]
      cases nsp with
      | false =>
        rw [if_neg (by simp)]
        exact joinSpace_cons_ne_nil (digits_word_ne_nil M (" min").data)
      | true =>
        rw [if_pos rfl, List.map_cons]
        exact joinSpace_cons_ne_nil (digits_word_filter_ne_nil M (" min").data)
    · rw [not_not] at hM
      subst hM
      rw [if_neg (show ¬((0 : Nat) ≠ 0) from by simp), List.nil_append,
        if_pos (Or.inr ⟨rfl, rfl⟩)]
      cases nsp with
      | false =>
        rw [if_neg (by simp)]
        exact joinSpace_cons_ne_nil (digits_word_ne_nil Z (" sec").data)
      | true =>
        rw [if_pos rfl, List.map_cons]
        exact joinSpace_cons_ne_nil (digits_word_filter_ne_nil Z (" sec").data)

/-- Claim C7 amended: the floor-formula description of `time2str` (emit
`"{h} hr"` iff `⌊s/3600⌋ > 0`, `"{m} min"` iff `⌊(s mod 3600)/60⌋ > 0`,
`"{s} sec"` iff the seconds remainder is positive or both other fields
are zero; parts joined by a single space, `no_space` stripping only the
space inside each part) holds for every duration below 31 days
(2678400 s).  Beyond that `gmtime`'s `tm_mday` wraps at month
boundaries and the formulas fail (see the counterexample).  The output
is non-empty for every non-negative input, and `time2str 0 = "0 sec"`. -/
theorem time2str_formula_amended :
    (∀ (s : Nat) (nsp : Bool), s < 2678400 →
      time2str s nsp = ⟨joinSpace
        (if nsp then (specParts s).map (fun p => p.filter (fun c => c ≠ ' '))
         else specParts s)⟩) ∧
    (∀ (s : Nat) (nsp : Bool), time2str s nsp ≠ "") ∧
    time2str 0 false = "0 sec" := by
  refine ⟨?_, ?_, rfl⟩
  · intro s nsp hs
    unfold time2str
    rw [time2strChars_formula s nsp hs]
  · intro s nsp h
    exact time2strChars_ne_nil s nsp (congrArg String.data h)

/-- Witness for C7's amended theorem at `s = 3661`. -/
theorem time2str_formula_amended_witness :
    time2str 3661 false = "1 hr 1 min 1 sec" := by
  have h := time2str_formula_amended.1 3661 false (by omega)
  exact h.trans (by decide)

theorem sub_append {S xs ys : List Char} (h1 : ∀ c ∈ xs, c ∈ S) (h2 : ∀ c ∈ ys, c ∈ S) :
    ∀ c ∈ xs ++ ys, c ∈ S := by
  intro c hc
  rcases List.mem_append.mp hc with h | h
  · exact h1 c h
  · exact h2 c h

theorem sub_cons {S xs : List Char} {a : Char} (ha : a ∈ S) (h : ∀ c ∈ xs, c ∈ S) :
    ∀ c ∈ a :: xs, c ∈ S := by
  intro c hc
  rcases List.mem_cons.mp hc with h' | h'
  · rw [h']; exact ha
  · exact h c h'

theorem sub_digits {S : List Char} (hd : ∀ c ∈ digitChars, c ∈ S) (n : Nat) :
    ∀ c ∈ natDigits n, c ∈ S :=
  fun c hc => hd c (natDigits_dg n c hc)

theorem sub_nil {S : List Char} : ∀ c ∈ ([] : List Char), c ∈ S := by
  intro c hc
  exact absurd hc (List.not_mem_nil c)

theorem not_mem_of_sub {S cs : List Char} {c : Char} (hsub : ∀ x ∈ cs, x ∈ S)
    (hc : c ∉ S) : c ∉ cs :=
  fun h => hc (hsub c h)

theorem natDigits_head (n : Nat) :
    ∃ d t, natDigits n = d :: t ∧ d ∈ digitChars := by
  cases hd : natDigits n with
  | nil => exact absurd hd (natDigits_ne_nil n)
  | cons d t =>
    refine ⟨d, t, rfl, ?_⟩
    have := natDigits_dg n d (by rw [hd]; exact List.mem_cons_self d t)
    exact this

theorem mem_pyStrip {c : Char} {cs : List Char} (h : c ∈ pyStripChars cs) : c ∈ cs := by
  unfold pyStripChars at h
  rw [List.mem_reverse] at h
  have h2 := (List.dropWhile_sublist isPySpace).subset h
  rw [List.mem_reverse] at h2
  exact (List.dropWhile_sublist isPySpace).subset h2

/-- Strip a string of the shape `digits ++ middle ++ [c]` with a
non-space last character: the identity. -/
theorem pyStrip_digits_last {n : Nat} {mid : List Char} {e : Char}
    (he : isPySpace e = false) :
    pyStripChars (natDigits n ++ (mid ++ [e])) = natDigits n ++ (mid ++ [e]) := by
  obtain ⟨d, t, hd, hdg⟩ := natDigits_head n
  apply pyStrip_eq_self
  · intro c hc
    rw [hd, List.cons_append, List.head?_cons, Option.some_inj] at hc
    subst hc
    exact dg_not_space d hdg
  · intro c hc
    rw [List.getLast?_append, List.getLast?_append] at hc
    simp only [List.getLast?_singleton, Option.or_some, Option.some_inj] at hc
    subst hc
    exact he

/-- The days group (`days`, `day`, `d`) never matches a string without
the letter `d`. -/
theorem loop_days {us : List (List Char × ℚ)} {r : List Char} {t : ℚ} {f : Bool}
    (hd : 'd' ∉ r) :
    unitLoop (("days".data, (86400 : ℚ)) :: ("day".data, (86400 : ℚ)) ::
      ("d".data, (86400 : ℚ)) :: us) r t f = unitLoop us r t f := by
  rw [unitLoop_skip (searchFrom_noMem (by decide) hd),
    unitLoop_skip (searchFrom_noMem (by decide) hd),
    unitLoop_skip (searchFrom_noMem (by decide) hd)]

theorem headNd_nil : headNd [] := by
  intro c hc
  simp at hc

theorem headNd_cons {a : Char} {t : List Char} (h1 : isPyDigit a = false) (h2 : a ≠ '.') :
    headNd (a :: t) := by
  intro c hc
  rw [List.head?_cons, Option.some_inj] at hc
  subst hc
  exact ⟨h1, h2⟩

theorem hoursSmall_sub : ∀ c ∈ (' ' :: (digitChars ++ ['m', 'i', 'n', 's', 'e', 'c'])),
    c ∈ digitChars ++ [' ', 'h', 'r', 'm', 'i', 'n', 's', 'e', 'c'] := by decide

/-- The hours group on `digits ++ " hr" ++ rest0` (with `rest0` empty or
starting with a space and containing no `h`, `r`, `o`, `u`, `d`):
`hours`, `hour`, `hrs` miss, `hr` hits and consumes the number, `h`
then misses; the loop continues on the stripped `rest0` with
`h * 3600` added. -/
theorem loop_hours (h : Nat) (rest0 : List Char) (us : List (List Char × ℚ)) (t : ℚ) (f : Bool)
    (hr0 : rest0 = [] ∨ ∃ r1, rest0 = ' ' :: r1)
    (hsub : ∀ c ∈ rest0, c ∈ ' ' :: (digitChars ++ ['m', 'i', 'n', 's', 'e', 'c'])) :
    unitLoop (("hours".data, (3600 : ℚ)) :: ("hour".data, (3600 : ℚ)) ::
        ("hrs".data, (3600 : ℚ)) :: ("hr".data, (3600 : ℚ)) :: ("h".data, (3600 : ℚ)) :: us)
      (natDigits h ++ (' ' :: 'h' :: 'r' :: rest0)) t f =
      unitLoop us (pyStripChars rest0) (t + (h : ℚ) * 3600) true := by
  have hR : ∀ c ∈ natDigits h ++ (' ' :: 'h' :: 'r' :: rest0),
      c ∈ digitChars ++ [' ', 'h', 'r', 'm', 'i', 'n', 's', 'e', 'c'] :=
    sub_append (sub_digits (by decide) h)
      (sub_cons (by decide) (sub_cons (by decide) (sub_cons (by decide)
        (fun c hc => hoursSmall_sub c (hsub c hc)))))
  have ho : 'o' ∉ natDigits h ++ (' ' :: 'h' :: 'r' :: rest0) :=
    not_mem_of_sub hR (by decide)
  have hdw : (' ' :: 'h' :: 'r' :: rest0).dropWhile isPySpace = 'h' :: 'r' :: rest0 := by
    simp [List.dropWhile_cons, isPySpace]
  have hnd : headNd (' ' :: 'h' :: 'r' :: rest0) := headNd_cons (by decide) (by decide)
  have hafter_hrs : afterNum "hrs".data (' ' :: 'h' :: 'r' :: rest0) = none := by
    simp only [afterNum]
    rw [hdw]
    rcases hr0 with h0 | ⟨r1, h0⟩ <;> subst h0 <;> simp [List.isPrefixOf]
  have hsrch_hrs : searchFrom "hrs".data (natDigits h ++ (' ' :: 'h' :: 'r' :: rest0)) = none := by
    rw [searchFrom_digits_miss "hrs".data (natDigits h) (' ' :: 'h' :: 'r' :: rest0)
      (natDigits_dg h) hnd hafter_hrs]
    rw [show (' ' :: 'h' :: 'r' :: rest0) = [' ', 'h', 'r'] ++ rest0 from rfl]
    rw [skipWord "hrs".data [' ', 'h', 'r'] rest0 (by decide)]
    rw [searchFrom_noMem (by decide)
      (not_mem_of_sub hsub (by decide : 'r' ∉ ' ' :: (digitChars ++ ['m', 'i', 'n', 's', 'e', 'c'])))]
    rfl
  have hafter_hr : afterNum "hr".data (' ' :: 'h' :: 'r' :: rest0) = some rest0 := by
    simp only [afterNum]
    rw [hdw]
    rw [show ("hr".data.isPrefixOf ('h' :: 'r' :: rest0)) = true from by simp [List.isPrefixOf]]
    simp only [if_true]
    rcases hr0 with h0 | ⟨r1, h0⟩ <;> subst h0
    · rfl
    · show (if isWordChar ' ' = true then none else some (' ' :: r1)) = some (' ' :: r1)
      rw [show isWordChar ' ' = false from rfl]
      rfl
  have hsrch_hr : searchFrom "hr".data (natDigits h ++ (' ' :: 'h' :: 'r' :: rest0)) =
      some ([], natDigits h, rest0) :=
    searchFrom_digits_hit "hr".data (natDigits h) (' ' :: 'h' :: 'r' :: rest0) rest0
      (natDigits_dg h) (natDigits_ne_nil h) hnd hafter_hr
  have hh : 'h' ∉ pyStripChars rest0 :=
    not_mem_of_sub (fun c hc => hsub c (mem_pyStrip hc)) (by decide)
  rw [unitLoop_skip (searchFrom_noMem (by decide) ho),
    unitLoop_skip (searchFrom_noMem (by decide) ho),
    unitLoop_skip hsrch_hrs,
    unitLoop_hit hsrch_hr,
    List.nil_append,
    numVal_digits (natDigits_dg h), digitsVal_natDigits,
    unitLoop_skip (searchFrom_noMem (by decide) hh)]

theorem minutesSmall_sub : ∀ c ∈ (' ' :: (digitChars ++ ['s', 'e', 'c'])),
    c ∈ digitChars ++ [' ', 'm', 'i', 'n', 's', 'e', 'c'] := by decide

/-- The minutes group on `digits ++ " min" ++ rest1` (with `rest1` empty
or starting with a space and containing no `m`, `i`, `n`, `u`, `h`,
`d`, `o`): `minutes`, `minute`, `mins` miss, `min` hits, `m` then
misses; the loop continues on the stripped `rest1` with `m * 60`
added. -/
theorem loop_minutes (m : Nat) (rest1 : List Char) (us : List (List Char × ℚ)) (t : ℚ) (f : Bool)
    (hr1 : rest1 = [] ∨ ∃ r2, rest1 = ' ' :: r2)
    (hsub : ∀ c ∈ rest1, c ∈ ' ' :: (digitChars ++ ['s', 'e', 'c'])) :
    unitLoop (("minutes".data, (60 : ℚ)) :: ("minute".data, (60 : ℚ)) ::
        ("mins".data, (60 : ℚ)) :: ("min".data, (60 : ℚ)) :: ("m".data, (60 : ℚ)) :: us)
      (natDigits m ++ (' ' :: 'm' :: 'i' :: 'n' :: rest1)) t f =
      unitLoop us (pyStripChars rest1) (t + (m : ℚ) * 60) true := by
  have hR : ∀ c ∈ natDigits m ++ (' ' :: 'm' :: 'i' :: 'n' :: rest1),
      c ∈ digitChars ++ [' ', 'm', 'i', 'n', 's', 'e', 'c'] :=
    sub_append (sub_digits (by decide) m)
      (sub_cons (by decide) (sub_cons (by decide) (sub_cons (by decide) (sub_cons (by decide)
        (fun c hc => minutesSmall_sub c (hsub c hc))))))
  have hu : 'u' ∉ natDigits m ++ (' ' :: 'm' :: 'i' :: 'n' :: rest1) :=
    not_mem_of_sub hR (by decide)
  have hdw : (' ' :: 'm' :: 'i' :: 'n' :: rest1).dropWhile isPySpace =
      'm' :: 'i' :: 'n' :: rest1 := by
    simp [List.dropWhile_cons, isPySpace]
  have hnd : headNd (' ' :: 'm' :: 'i' :: 'n' :: rest1) := headNd_cons (by decide) (by decide)
  have hafter_mins : afterNum "mins".data (' ' :: 'm' :: 'i' :: 'n' :: rest1) = none := by
    simp only [afterNum]
    rw [hdw]
    rcases hr1 with h0 | ⟨r2, h0⟩ <;> subst h0 <;> simp [List.isPrefixOf]
  have hsrch_mins : searchFrom "mins".data
      (natDigits m ++ (' ' :: 'm' :: 'i' :: 'n' :: rest1)) = none := by
    rw [searchFrom_digits_miss "mins".data (natDigits m) (' ' :: 'm' :: 'i' :: 'n' :: rest1)
      (natDigits_dg m) hnd hafter_mins]
    rw [show (' ' :: 'm' :: 'i' :: 'n' :: rest1) = [' ', 'm', 'i', 'n'] ++ rest1 from rfl]
    rw [skipWord "mins".data [' ', 'm', 'i', 'n'] rest1 (by decide)]
    rw [searchFrom_noMem (by decide)
      (not_mem_of_sub hsub (by decide : 'm' ∉ ' ' :: (digitChars ++ ['s', 'e', 'c'])))]
    rfl
  have hafter_min : afterNum "min".data (' ' :: 'm' :: 'i' :: 'n' :: rest1) = some rest1 := by
    simp only [afterNum]
    rw [hdw]
    rw [show ("min".data.isPrefixOf ('m' :: 'i' :: 'n' :: rest1)) = true from by
      simp [List.isPrefixOf]]
    simp only [if_true]
    rcases hr1 with h0 | ⟨r2, h0⟩ <;> subst h0
    · rfl
    · show (if isWordChar ' ' = true then none else some (' ' :: r2)) = some (' ' :: r2)
      rw [show isWordChar ' ' = false from rfl]
      rfl
  have hsrch_min : searchFrom "min".data (natDigits m ++ (' ' :: 'm' :: 'i' :: 'n' :: rest1)) =
      some ([], natDigits m, rest1) :=
    searchFrom_digits_hit "min".data (natDigits m) (' ' :: 'm' :: 'i' :: 'n' :: rest1) rest1
      (natDigits_dg m) (natDigits_ne_nil m) hnd hafter_min
  have hm : 'm' ∉ pyStripChars rest1 :=
    not_mem_of_sub (fun c hc => hsub c (mem_pyStrip hc)) (by decide)
  rw [unitLoop_skip (searchFrom_noMem (by decide) hu),
    unitLoop_skip (searchFrom_noMem (by decide) hu),
    unitLoop_skip hsrch_mins,
    unitLoop_hit hsrch_min,
    List.nil_append,
    numVal_digits (natDigits_dg m), digitsVal_natDigits,
    unitLoop_skip (searchFrom_noMem (by decide) hm)]

/-- The seconds group on `digits ++ " sec"`: `seconds`, `second`,
`secs` miss, `sec` hits consuming everything, `s` then misses on the
empty remainder. -/
theorem loop_seconds (z : Nat) (us : List (List Char × ℚ)) (t : ℚ) (f : Bool) :
    unitLoop (("seconds".data, (1 : ℚ)) :: ("second".data, (1 : ℚ)) ::
        ("secs".data, (1 : ℚ)) :: ("sec".data, (1 : ℚ)) :: ("s".data, (1 : ℚ)) :: us)
      (natDigits z ++ (' ' :: 's' :: 'e' :: 'c' :: [])) t f =
      unitLoop us [] (t + (z : ℚ) * 1) true := by
  have hR : ∀ c ∈ natDigits z ++ (' ' :: 's' :: 'e' :: 'c' :: []),
      c ∈ digitChars ++ [' ', 's', 'e', 'c'] :=
    sub_append (sub_digits (by decide) z)
      (sub_cons (by decide) (sub_cons (by decide) (sub_cons (by decide) (sub_cons (by decide)
        sub_nil))))
  have ho : 'o' ∉ natDigits z ++ (' ' :: 's' :: 'e' :: 'c' :: []) :=
    not_mem_of_sub hR (by decide)
  have hdw : (' ' :: 's' :: 'e' :: 'c' :: ([] : List Char)).dropWhile isPySpace =
      's' :: 'e' :: 'c' :: [] := by
    simp [List.dropWhile_cons, isPySpace]
  have hnd : headNd (' ' :: 's' :: 'e' :: 'c' :: ([] : List Char)) :=
    headNd_cons (by decide) (by decide)
  have hafter_secs : afterNum "secs".data (' ' :: 's' :: 'e' :: 'c' :: []) = none := by
    simp only [afterNum]
    rw [hdw]
    simp [List.isPrefixOf]
  have hsrch_secs : searchFrom "secs".data
      (natDigits z ++ (' ' :: 's' :: 'e' :: 'c' :: [])) = none := by
    rw [searchFrom_digits_miss "secs".data (natDigits z) (' ' :: 's' :: 'e' :: 'c' :: [])
      (natDigits_dg z) hnd hafter_secs]
    rw [show (' ' :: 's' :: 'e' :: 'c' :: ([] : List Char)) =
      [' ', 's', 'e', 'c'] ++ [] from rfl]
    rw [skipWord "secs".data [' ', 's', 'e', 'c'] [] (by decide)]
    rfl
  have hafter_sec : afterNum "sec".data (' ' :: 's' :: 'e' :: 'c' :: []) = some [] := by
    simp only [afterNum]
    rw [hdw]
    rfl
  have hsrch_sec : searchFrom "sec".data (natDigits z ++ (' ' :: 's' :: 'e' :: 'c' :: [])) =
      some ([], natDigits z, []) :=
    searchFrom_digits_hit "sec".data (natDigits z) (' ' :: 's' :: 'e' :: 'c' :: []) []
      (natDigits_dg z) (natDigits_ne_nil z) hnd hafter_sec
  rw [unitLoop_skip (searchFrom_noMem (by decide) ho),
    unitLoop_skip (searchFrom_noMem (by decide) ho),
    unitLoop_skip hsrch_secs,
    unitLoop_hit hsrch_sec,
    List.nil_append,
    numVal_digits (natDigits_dg z), digitsVal_natDigits]
  rw [show pyStripChars [] = [] from rfl]
  rw [unitLoop_skip (searchFrom_noMem (by decide) (List.not_mem_nil 's'))]

/-- Every hours spelling contains `h`: the whole group misses a string
without `h`. -/
theorem loop_hours_none {us : List (List Char × ℚ)} {r : List Char} {t : ℚ} {f : Bool}
    (hh : 'h' ∉ r) :
    unitLoop (("hours".data, (3600 : ℚ)) :: ("hour".data, (3600 : ℚ)) ::
        ("hrs".data, (3600 : ℚ)) :: ("hr".data, (3600 : ℚ)) :: ("h".data, (3600 : ℚ)) :: us)
      r t f = unitLoop us r t f := by
  rw [unitLoop_skip (searchFrom_noMem (by decide) hh),
    unitLoop_skip (searchFrom_noMem (by decide) hh),
    unitLoop_skip (searchFrom_noMem (by decide) hh),
    unitLoop_skip (searchFrom_noMem (by decide) hh),
    unitLoop_skip (searchFrom_noMem (by decide) hh)]

/-- Every minutes spelling contains `m`: the whole group misses a
string without `m`. -/
theorem loop_minutes_none {us : List (List Char × ℚ)} {r : List Char} {t : ℚ} {f : Bool}
    (hm : 'm' ∉ r) :
    unitLoop (("minutes".data, (60 : ℚ)) :: ("minute".data, (60 : ℚ)) ::
        ("mins".data, (60 : ℚ)) :: ("min".data, (60 : ℚ)) :: ("m".data, (60 : ℚ)) :: us)
      r t f = unitLoop us r t f := by
  rw [unitLoop_skip (searchFrom_noMem (by decide) hm),
    unitLoop_skip (searchFrom_noMem (by decide) hm),
    unitLoop_skip (searchFrom_noMem (by decide) hm),
    unitLoop_skip (searchFrom_noMem (by decide) hm),
    unitLoop_skip (searchFrom_noMem (by decide) hm)]

/-- Every seconds spelling contains `s`: the whole group misses a
string without `s`. -/
theorem loop_seconds_none {us : List (List Char × ℚ)} {r : List Char} {t : ℚ} {f : Bool}
    (hs : 's' ∉ r) :
    unitLoop (("seconds".data, (1 : ℚ)) :: ("second".data, (1 : ℚ)) ::
        ("secs".data, (1 : ℚ)) :: ("sec".data, (1 : ℚ)) :: ("s".data, (1 : ℚ)) :: us)
      r t f = unitLoop us r t f := by
  rw [unitLoop_skip (searchFrom_noMem (by decide) hs),
    unitLoop_skip (searchFrom_noMem (by decide) hs),
    unitLoop_skip (searchFrom_noMem (by decide) hs),
    unitLoop_skip (searchFrom_noMem (by decide) hs),
    unitLoop_skip (searchFrom_noMem (by decide) hs)]

theorem lowerA : ∀ c ∈ digitChars ++ [' ', 'h', 'r', 'm', 'i', 'n', 's', 'e', 'c'],
    c.toLower = c := by decide

/-- `str2time` on a formatted duration string: with the scan result
given, the remaining plumbing (emptiness, strip, lower-casing, colon
test) is the identity. -/
theorem str2timeCore_shape (cs : List Char) (v : ℚ)
    (hsubA : ∀ c ∈ cs, c ∈ digitChars ++ [' ', 'h', 'r', 'm', 'i', 'n', 's', 'e', 'c'])
    (hne : cs ≠ [])
    (hstrip : pyStripChars cs = cs)
    (hloop : unitLoop timeUnits cs 0 false = (v, [], true)) :
    str2timeCore cs = ⟨v, []⟩ := by
  have hemp : cs.isEmpty = false := by
    cases cs with
    | nil => exact absurd rfl hne
    | cons a t => rfl
  unfold str2timeCore
  rw [hemp, hstrip, pyLower_eq_self (fun c hc => lowerA c (hsubA c hc))]
  simp only [Bool.false_eq_true, if_false,
    contains_eq_false_of_not_mem (not_mem_of_sub hsubA
      (show ':' ∉ digitChars ++ [' ', 'h', 'r', 'm', 'i', 'n', 's', 'e', 'c'] from by decide)),
    hloop, if_true]

/-- Scanning a pure `"Z sec"` output. -/
theorem shape_s (Z : Nat) :
    str2timeCore (joinSpace [natDigits Z ++ (" sec").data]) =
      ⟨0 + (Z : ℚ) * 1, []⟩ := by
  rw [show (" sec").data = ' ' :: 's' :: 'e' :: 'c' :: [] from rfl]
  rw [show joinSpace [natDigits Z ++ (' ' :: 's' :: 'e' :: 'c' :: [])] =
    natDigits Z ++ (' ' :: 's' :: 'e' :: 'c' :: []) from rfl]
  have hsub0 : ∀ c ∈ natDigits Z ++ (' ' :: 's' :: 'e' :: 'c' :: []),
      c ∈ digitChars ++ [' ', 's', 'e', 'c'] :=
    sub_append (sub_digits (by decide) Z)
      (sub_cons (by decide) (sub_cons (by decide) (sub_cons (by decide)
        (sub_cons (by decide) sub_nil))))
  apply str2timeCore_shape
  · exact fun c hc => (show ∀ c ∈ digitChars ++ [' ', 's', 'e', 'c'],
      c ∈ digitChars ++ [' ', 'h', 'r', 'm', 'i', 'n', 's', 'e', 'c'] from by decide)
      c (hsub0 c hc)
  · exact digits_word_ne_nil Z _
  · rw [show natDigits Z ++ (' ' :: 's' :: 'e' :: 'c' :: ([] : List Char)) =
      natDigits Z ++ ([' ', 's', 'e'] ++ ['c']) from rfl]
    exact pyStrip_digits_last (show isPySpace 'c' = false from rfl)
  · simp only [timeUnits]
    rw [loop_days (not_mem_of_sub hsub0 (by decide)),
      loop_hours_none (not_mem_of_sub hsub0 (by decide)),
      loop_minutes_none (not_mem_of_sub hsub0 (by decide)),
      loop_seconds Z [] 0 false]
    rfl

/-- Scanning a pure `"M min"` output. -/
theorem shape_m (M : Nat) :
    str2timeCore (joinSpace [natDigits M ++ (" min").data]) =
      ⟨0 + (M : ℚ) * 60, []⟩ := by
  rw [show (" min").data = ' ' :: 'm' :: 'i' :: 'n' :: [] from rfl]
  rw [show joinSpace [natDigits M ++ (' ' :: 'm' :: 'i' :: 'n' :: [])] =
    natDigits M ++ (' ' :: 'm' :: 'i' :: 'n' :: []) from rfl]
  have hsub0 : ∀ c ∈ natDigits M ++ (' ' :: 'm' :: 'i' :: 'n' :: []),
      c ∈ digitChars ++ [' ', 'm', 'i', 'n'] :=
    sub_append (sub_digits (by decide) M)
      (sub_cons (by decide) (sub_cons (by decide) (sub_cons (by decide)
        (sub_cons (by decide) sub_nil))))
  apply str2timeCore_shape
  · exact fun c hc => (show ∀ c ∈ digitChars ++ [' ', 'm', 'i', 'n'],
      c ∈ digitChars ++ [' ', 'h', 'r', 'm', 'i', 'n', 's', 'e', 'c'] from by decide)
      c (hsub0 c hc)
  · exact digits_word_ne_nil M _
  · rw [show natDigits M ++ (' ' :: 'm' :: 'i' :: 'n' :: ([] : List Char)) =
      natDigits M ++ ([' ', 'm', 'i'] ++ ['n']) from rfl]
    exact pyStrip_digits_last (show isPySpace 'n' = false from rfl)
  · simp only [timeUnits]
    rw [loop_days (not_mem_of_sub hsub0 (by decide)),
      loop_hours_none (not_mem_of_sub hsub0 (by decide)),
      loop_minutes M [] _ 0 false (Or.inl rfl) sub_nil]
    rw [show pyStripChars [] = [] from rfl]
    rw [loop_seconds_none (List.not_mem_nil 's')]
    rfl

/-- Scanning a pure `"H hr"` output. -/
theorem shape_h (H : Nat) :
    str2timeCore (joinSpace [natDigits H ++ (" hr").data]) =
      ⟨0 + (H : ℚ) * 3600, []⟩ := by
  rw [show (" hr").data = ' ' :: 'h' :: 'r' :: [] from rfl]
  rw [show joinSpace [natDigits H ++ (' ' :: 'h' :: 'r' :: [])] =
    natDigits H ++ (' ' :: 'h' :: 'r' :: []) from rfl]
  have hsub0 : ∀ c ∈ natDigits H ++ (' ' :: 'h' :: 'r' :: []),
      c ∈ digitChars ++ [' ', 'h', 'r'] :=
    sub_append (sub_digits (by decide) H)
      (sub_cons (by decide) (sub_cons (by decide) (sub_cons (by decide) sub_nil)))
  apply str2timeCore_shape
  · exact fun c hc => (show ∀ c ∈ digitChars ++ [' ', 'h', 'r'],
      c ∈ digitChars ++ [' ', 'h', 'r', 'm', 'i', 'n', 's', 'e', 'c'] from by decide)
      c (hsub0 c hc)
  · exact digits_word_ne_nil H _
  · rw [show natDigits H ++ (' ' :: 'h' :: 'r' :: ([] : List Char)) =
      natDigits H ++ ([' ', 'h'] ++ ['r']) from rfl]
    exact pyStrip_digits_last (show isPySpace 'r' = false from rfl)
  · simp only [timeUnits]
    rw [loop_days (not_mem_of_sub hsub0 (by decide)),
      loop_hours H [] _ 0 false (Or.inl rfl) sub_nil]
    rw [show pyStripChars [] = [] from rfl]
    rw [loop_minutes_none (List.not_mem_nil 'm'),
      loop_seconds_none (List.not_mem_nil 's')]
    rfl

/-- Scanning an `"M min Z sec"` output. -/
theorem shape_ms (M Z : Nat) :
    str2timeCore (joinSpace [natDigits M ++ (" min").data, natDigits Z ++ (" sec").data]) =
      ⟨0 + (M : ℚ) * 60 + (Z : ℚ) * 1, []⟩ := by
  rw [show (" min").data = ' ' :: 'm' :: 'i' :: 'n' :: [] from rfl,
    show (" sec").data = ' ' :: 's' :: 'e' :: 'c' :: [] from rfl]
  have hjoin : joinSpace [natDigits M ++ (' ' :: 'm' :: 'i' :: 'n' :: []),
      natDigits Z ++ (' ' :: 's' :: 'e' :: 'c' :: [])] =
      natDigits M ++ (' ' :: 'm' :: 'i' :: 'n' ::
        (' ' :: (natDigits Z ++ (' ' :: 's' :: 'e' :: 'c' :: [])))) := by
    simp [joinSpace, List.append_assoc]
  rw [hjoin]
  have hsubZ : ∀ c ∈ natDigits Z ++ (' ' :: 's' :: 'e' :: 'c' :: []),
      c ∈ digitChars ++ [' ', 's', 'e', 'c'] :=
    sub_append (sub_digits (by decide) Z)
      (sub_cons (by decide) (sub_cons (by decide) (sub_cons (by decide)
        (sub_cons (by decide) sub_nil))))
  have hsub0 : ∀ c ∈ natDigits M ++ (' ' :: 'm' :: 'i' :: 'n' ::
      (' ' :: (natDigits Z ++ (' ' :: 's' :: 'e' :: 'c' :: [])))),
      c ∈ digitChars ++ [' ', 'm', 'i', 'n', 's', 'e', 'c'] :=
    sub_append (sub_digits (by decide) M)
      (sub_cons (by decide) (sub_cons (by decide) (sub_cons (by decide)
        (sub_cons (by decide) (sub_cons (by decide)
          (fun c hc => (show ∀ c ∈ digitChars ++ [' ', 's', 'e', 'c'],
            c ∈ digitChars ++ [' ', 'm', 'i', 'n', 's', 'e', 'c'] from by decide)
            c (hsubZ c hc)))))))
  apply str2timeCore_shape
  · exact fun c hc => (show ∀ c ∈ digitChars ++ [' ', 'm', 'i', 'n', 's', 'e', 'c'],
      c ∈ digitChars ++ [' ', 'h', 'r', 'm', 'i', 'n', 's', 'e', 'c'] from by decide)
      c (hsub0 c hc)
  · exact digits_word_ne_nil M _
  · have hX : natDigits M ++ (' ' :: 'm' :: 'i' :: 'n' ::
        (' ' :: (natDigits Z ++ (' ' :: 's' :: 'e' :: 'c' :: [])))) =
        natDigits M ++ ((' ' :: 'm' :: 'i' :: 'n' :: ' ' ::
          (natDigits Z ++ [' ', 's', 'e'])) ++ ['c']) := by
      simp [List.append_assoc]
    rw [hX, pyStrip_digits_last (show isPySpace 'c' = false from rfl)]
  · simp only [timeUnits]
    rw [loop_days (not_mem_of_sub hsub0 (by decide)),
      loop_hours_none (not_mem_of_sub hsub0 (by decide)),
      loop_minutes M (' ' :: (natDigits Z ++ (' ' :: 's' :: 'e' :: 'c' :: []))) _ 0 false
        (Or.inr ⟨_, rfl⟩)
        (sub_cons (by decide) (fun c hc => (show ∀ c ∈ digitChars ++ [' ', 's', 'e', 'c'],
          c ∈ ' ' :: (digitChars ++ ['s', 'e', 'c']) from by decide) c (hsubZ c hc)))]
    rw [pyStrip_cons_space (show isPySpace ' ' = true from rfl)]
    rw [show natDigits Z ++ (' ' :: 's' :: 'e' :: 'c' :: ([] : List Char)) =
      natDigits Z ++ ([' ', 's', 'e'] ++ ['c']) from rfl,
      pyStrip_digits_last (show isPySpace 'c' = false from rfl),
      show natDigits Z ++ ([' ', 's', 'e'] ++ ['c']) =
        natDigits Z ++ (' ' :: 's' :: 'e' :: 'c' :: []) from rfl]
    rw [loop_seconds Z [] _ true]
    rfl

/-- Scanning an `"H hr Z sec"` output. -/
theorem shape_hs (H Z : Nat) :
    str2timeCore (joinSpace [natDigits H ++ (" hr").data, natDigits Z ++ (" sec").data]) =
      ⟨0 + (H : ℚ) * 3600 + (Z : ℚ) * 1, []⟩ := by
  rw [show (" hr").data = ' ' :: 'h' :: 'r' :: [] from rfl,
    show (" sec").data = ' ' :: 's' :: 'e' :: 'c' :: [] from rfl]
  have hjoin : joinSpace [natDigits H ++ (' ' :: 'h' :: 'r' :: []),
      natDigits Z ++ (' ' :: 's' :: 'e' :: 'c' :: [])] =
      natDigits H ++ (' ' :: 'h' :: 'r' ::
        (' ' :: (natDigits Z ++ (' ' :: 's' :: 'e' :: 'c' :: [])))) := by
    simp [joinSpace, List.append_assoc]
  rw [hjoin]
  have hsubZ : ∀ c ∈ natDigits Z ++ (' ' :: 's' :: 'e' :: 'c' :: []),
      c ∈ digitChars ++ [' ', 's', 'e', 'c'] :=
    sub_append (sub_digits (by decide) Z)
      (sub_cons (by decide) (sub_cons (by decide) (sub_cons (by decide)
        (sub_cons (by decide) sub_nil))))
  have hsub0 : ∀ c ∈ natDigits H ++ (' ' :: 'h' :: 'r' ::
      (' ' :: (natDigits Z ++ (' ' :: 's' :: 'e' :: 'c' :: [])))),
      c ∈ digitChars ++ [' ', 'h', 'r', 's', 'e', 'c'] :=
    sub_append (sub_digits (by decide) H)
      (sub_cons (by decide) (sub_cons (by decide) (sub_cons (by decide)
        (sub_cons (by decide)
          (fun c hc => (show ∀ c ∈ digitChars ++ [' ', 's', 'e', 'c'],
            c ∈ digitChars ++ [' ', 'h', 'r', 's', 'e', 'c'] from by decide)
            c (hsubZ c hc))))))
  apply str2timeCore_shape
  · exact fun c hc => (show ∀ c ∈ digitChars ++ [' ', 'h', 'r', 's', 'e', 'c'],
      c ∈ digitChars ++ [' ', 'h', 'r', 'm', 'i', 'n', 's', 'e', 'c'] from by decide)
      c (hsub0 c hc)
  · exact digits_word_ne_nil H _
  · have hX : natDigits H ++ (' ' :: 'h' :: 'r' ::
        (' ' :: (natDigits Z ++ (' ' :: 's' :: 'e' :: 'c' :: [])))) =
        natDigits H ++ ((' ' :: 'h' :: 'r' :: ' ' ::
          (natDigits Z ++ [' ', 's', 'e'])) ++ ['c']) := by
      simp [List.append_assoc]
    rw [hX, pyStrip_digits_last (show isPySpace 'c' = false from rfl)]
  · simp only [timeUnits]
    rw [loop_days (not_mem_of_sub hsub0 (by decide)),
      loop_hours H (' ' :: (natDigits Z ++ (' ' :: 's' :: 'e' :: 'c' :: []))) _ 0 false
        (Or.inr ⟨_, rfl⟩)
        (sub_cons (by decide) (fun c hc => (show ∀ c ∈ digitChars ++ [' ', 's', 'e', 'c'],
          c ∈ ' ' :: (digitChars ++ ['m', 'i', 'n', 's', 'e', 'c']) from by decide)
          c (hsubZ c hc)))]
    rw [pyStrip_cons_space (show isPySpace ' ' = true from rfl)]
    rw [show natDigits Z ++ (' ' :: 's' :: 'e' :: 'c' :: ([] : List Char)) =
      natDigits Z ++ ([' ', 's', 'e'] ++ ['c']) from rfl,
      pyStrip_digits_last (show isPySpace 'c' = false from rfl),
      show natDigits Z ++ ([' ', 's', 'e'] ++ ['c']) =
        natDigits Z ++ (' ' :: 's' :: 'e' :: 'c' :: []) from rfl]
    rw [loop_minutes_none (not_mem_of_sub hsubZ (by decide)),
      loop_seconds Z [] _ true]
    rfl

/-- Scanning an `"H hr M min"` output. -/
theorem shape_hm (H M : Nat) :
    str2timeCore (joinSpace [natDigits H ++ (" hr").data, natDigits M ++ (" min").data]) =
      ⟨0 + (H : ℚ) * 3600 + (M : ℚ) * 60, []⟩ := by
  rw [show (" hr").data = ' ' :: 'h' :: 'r' :: [] from rfl,
    show (" min").data = ' ' :: 'm' :: 'i' :: 'n' :: [] from rfl]
  have hjoin : joinSpace [natDigits H ++ (' ' :: 'h' :: 'r' :: []),
      natDigits M ++ (' ' :: 'm' :: 'i' :: 'n' :: [])] =
      natDigits H ++ (' ' :: 'h' :: 'r' ::
        (' ' :: (natDigits M ++ (' ' :: 'm' :: 'i' :: 'n' :: [])))) := by
    simp [joinSpace, List.append_assoc]
  rw [hjoin]
  have hsubM : ∀ c ∈ natDigits M ++ (' ' :: 'm' :: 'i' :: 'n' :: []),
      c ∈ digitChars ++ [' ', 'm', 'i', 'n'] :=
    sub_append (sub_digits (by decide) M)
      (sub_cons (by decide) (sub_cons (by decide) (sub_cons (by decide)
        (sub_cons (by decide) sub_nil))))
  have hsub0 : ∀ c ∈ natDigits H ++ (' ' :: 'h' :: 'r' ::
      (' ' :: (natDigits M ++ (' ' :: 'm' :: 'i' :: 'n' :: [])))),
      c ∈ digitChars ++ [' ', 'h', 'r', 'm', 'i', 'n'] :=
    sub_append (sub_digits (by decide) H)
      (sub_cons (by decide) (sub_cons (by decide) (sub_cons (by decide)
        (sub_cons (by decide)
          (fun c hc => (show ∀ c ∈ digitChars ++ [' ', 'm', 'i', 'n'],
            c ∈ digitChars ++ [' ', 'h', 'r', 'm', 'i', 'n'] from by decide)
            c (hsubM c hc))))))
  apply str2timeCore_shape
  · exact fun c hc => (show ∀ c ∈ digitChars ++ [' ', 'h', 'r', 'm', 'i', 'n'],
      c ∈ digitChars ++ [' ', 'h', 'r', 'm', 'i', 'n', 's', 'e', 'c'] from by decide)
      c (hsub0 c hc)
  · exact digits_word_ne_nil H _
  · have hX : natDigits H ++ (' ' :: 'h' :: 'r' ::
        (' ' :: (natDigits M ++ (' ' :: 'm' :: 'i' :: 'n' :: [])))) =
        natDigits H ++ ((' ' :: 'h' :: 'r' :: ' ' ::
          (natDigits M ++ [' ', 'm', 'i'])) ++ ['n']) := by
      simp [List.append_assoc]
    rw [hX, pyStrip_digits_last (show isPySpace 'n' = false from rfl)]
  · simp only [timeUnits]
    rw [loop_days (not_mem_of_sub hsub0 (by decide)),
      loop_hours H (' ' :: (natDigits M ++ (' ' :: 'm' :: 'i' :: 'n' :: []))) _ 0 false
        (Or.inr ⟨_, rfl⟩)
        (sub_cons (by decide) (fun c hc => (show ∀ c ∈ digitChars ++ [' ', 'm', 'i', 'n'],
          c ∈ ' ' :: (digitChars ++ ['m', 'i', 'n', 's', 'e', 'c']) from by decide)
          c (hsubM c hc)))]
    rw [pyStrip_cons_space (show isPySpace ' ' = true from rfl)]
    rw [show natDigits M ++ (' ' :: 'm' :: 'i' :: 'n' :: ([] : List Char)) =
      natDigits M ++ ([' ', 'm', 'i'] ++ ['n']) from rfl,
      pyStrip_digits_last (show isPySpace 'n' = false from rfl),
      show natDigits M ++ ([' ', 'm', 'i'] ++ ['n']) =
        natDigits M ++ (' ' :: 'm' :: 'i' :: 'n' :: []) from rfl]
    rw [loop_minutes M [] _ _ true (Or.inl rfl) sub_nil]
    rw [show pyStripChars [] = [] from rfl]
    rw [loop_seconds_none (List.not_mem_nil 's')]
    rfl

/-- Scanning an `"H hr M min Z sec"` output. -/
theorem shape_hms (H M Z : Nat) :
    str2timeCore (joinSpace [natDigits H ++ (" hr").data, natDigits M ++ (" min").data,
      natDigits Z ++ (" sec").data]) =
      ⟨0 + (H : ℚ) * 3600 + (M : ℚ) * 60 + (Z : ℚ) * 1, []⟩ := by
  rw [show (" hr").data = ' ' :: 'h' :: 'r' :: [] from rfl,
    show (" min").data = ' ' :: 'm' :: 'i' :: 'n' :: [] from rfl,
    show (" sec").data = ' ' :: 's' :: 'e' :: 'c' :: [] from rfl]
  have hjoin : joinSpace [natDigits H ++ (' ' :: 'h' :: 'r' :: []),
      natDigits M ++ (' ' :: 'm' :: 'i' :: 'n' :: []),
      natDigits Z ++ (' ' :: 's' :: 'e' :: 'c' :: [])] =
      natDigits H ++ (' ' :: 'h' :: 'r' ::
        (' ' :: (natDigits M ++ (' ' :: 'm' :: 'i' :: 'n' ::
          (' ' :: (natDigits Z ++ (' ' :: 's' :: 'e' :: 'c' :: []))))))) := by
    simp [joinSpace, List.append_assoc]
  rw [hjoin]
  have hsubZ : ∀ c ∈ natDigits Z ++ (' ' :: 's' :: 'e' :: 'c' :: []),
      c ∈ digitChars ++ [' ', 's', 'e', 'c'] :=
    sub_append (sub_digits (by decide) Z)
      (sub_cons (by decide) (sub_cons (by decide) (sub_cons (by decide)
        (sub_cons (by decide) sub_nil))))
  have hsubM : ∀ c ∈ natDigits M ++ (' ' :: 'm' :: 'i' :: 'n' ::
      (' ' :: (natDigits Z ++ (' ' :: 's' :: 'e' :: 'c' :: [])))),
      c ∈ digitChars ++ [' ', 'm', 'i', 'n', 's', 'e', 'c'] :=
    sub_append (sub_digits (by decide) M)
      (sub_cons (by decide) (sub_cons (by decide) (sub_cons (by decide)
        (sub_cons (by decide) (sub_cons (by decide)
          (fun c hc => (show ∀ c ∈ digitChars ++ [' ', 's', 'e', 'c'],
            c ∈ digitChars ++ [' ', 'm', 'i', 'n', 's', 'e', 'c'] from by decide)
            c (hsubZ c hc)))))))
  have hsub0 : ∀ c ∈ natDigits H ++ (' ' :: 'h' :: 'r' ::
      (' ' :: (natDigits M ++ (' ' :: 'm' :: 'i' :: 'n' ::
        (' ' :: (natDigits Z ++ (' ' :: 's' :: 'e' :: 'c' :: []))))))),
      c ∈ digitChars ++ [' ', 'h', 'r', 'm', 'i', 'n', 's', 'e', 'c'] :=
    sub_append (sub_digits (by decide) H)
      (sub_cons (by decide) (sub_cons (by decide) (sub_cons (by decide)
        (sub_cons (by decide)
          (fun c hc => (show ∀ c ∈ digitChars ++ [' ', 'm', 'i', 'n', 's', 'e', 'c'],
            c ∈ digitChars ++ [' ', 'h', 'r', 'm', 'i', 'n', 's', 'e', 'c'] from by decide)
            c (hsubM c hc))))))
  apply str2timeCore_shape
  · exact hsub0
  · exact digits_word_ne_nil H _
  · have hX : natDigits H ++ (' ' :: 'h' :: 'r' ::
        (' ' :: (natDigits M ++ (' ' :: 'm' :: 'i' :: 'n' ::
          (' ' :: (natDigits Z ++ (' ' :: 's' :: 'e' :: 'c' :: []))))))) =
        natDigits H ++ ((' ' :: 'h' :: 'r' :: ' ' ::
          (natDigits M ++ (' ' :: 'm' :: 'i' :: 'n' :: ' ' ::
            (natDigits Z ++ [' ', 's', 'e'])))) ++ ['c']) := by
      simp [List.append_assoc]
    rw [hX, pyStrip_digits_last (show isPySpace 'c' = false from rfl)]
  · simp only [timeUnits]
    rw [loop_days (not_mem_of_sub hsub0 (by decide)),
      loop_hours H (' ' :: (natDigits M ++ (' ' :: 'm' :: 'i' :: 'n' ::
          (' ' :: (natDigits Z ++ (' ' :: 's' :: 'e' :: 'c' :: [])))))) _ 0 false
        (Or.inr ⟨_, rfl⟩)
        (sub_cons (by decide)
          (fun c hc => (show ∀ c ∈ digitChars ++ [' ', 'm', 'i', 'n', 's', 'e', 'c'],
            c ∈ ' ' :: (digitChars ++ ['m', 'i', 'n', 's', 'e', 'c']) from by decide)
            c (hsubM c hc)))]
    rw [pyStrip_cons_space (show isPySpace ' ' = true from rfl)]
    have hX2 : natDigits M ++ (' ' :: 'm' :: 'i' :: 'n' ::
        (' ' :: (natDigits Z ++ (' ' :: 's' :: 'e' :: 'c' :: [])))) =
        natDigits M ++ ((' ' :: 'm' :: 'i' :: 'n' :: ' ' ::
          (natDigits Z ++ [' ', 's', 'e'])) ++ ['c']) := by
      simp [List.append_assoc]
    rw [hX2, pyStrip_digits_last (show isPySpace 'c' = false from rfl), ← hX2]
    rw [loop_minutes M (' ' :: (natDigits Z ++ (' ' :: 's' :: 'e' :: 'c' :: []))) _ _ true
        (Or.inr ⟨_, rfl⟩)
        (sub_cons (by decide) (fun c hc => (show ∀ c ∈ digitChars ++ [' ', 's', 'e', 'c'],
          c ∈ ' ' :: (digitChars ++ ['s', 'e', 'c']) from by decide) c (hsubZ c hc)))]
    rw [pyStrip_cons_space (show isPySpace ' ' = true from rfl)]
    rw [show natDigits Z ++ (' ' :: 's' :: 'e' :: 'c' :: ([] : List Char)) =
      natDigits Z ++ ([' ', 's', 'e'] ++ ['c']) from rfl,
      pyStrip_digits_last (show isPySpace 'c' = false from rfl),
      show natDigits Z ++ ([' ', 's', 'e'] ++ ['c']) =
        natDigits Z ++ (' ' :: 's' :: 'e' :: 'c' :: []) from rfl]
    rw [loop_seconds Z [] _ true]
    rfl

/-- Parsing any `time2str` output recovers exactly
`hrs * 3600 + min * 60 + sec` of the `gmtime`-derived fields, with
nothing logged. -/
theorem scan_time2str (s : Nat) :
    str2timeCore (time2strChars s false) =
      ⟨((s / 3600 % 24 + ((civilFromDays (s / 86400)).2.2 - 1) * 24 : Nat) : ℚ) * 3600 +
        ((s / 60 % 60 : Nat) : ℚ) * 60 + ((s % 60 : Nat) : ℚ), []⟩ := by
  simp only [time2strChars, gmtime]
  generalize s / 3600 % 24 + ((civilFromDays (s / 86400)).2.2 - 1) * 24 = H
  generalize s / 60 % 60 = M
  generalize s % 60 = Z
  rw [if_neg (show ¬(false = true) from by simp)]
  by_cases hH : H ≠ 0
  · rw [if_pos hH]
    by_cases hM : M ≠ 0
    · rw [if_pos hM]
      by_cases hZ : Z ≠ 0
      · rw [if_pos (Or.inl hZ)]
        exact (shape_hms H M Z).trans
          (by refine congrArg (fun q => TimeResult.mk q []) ?_; ring)
      · rw [not_not] at hZ
        subst hZ
        have hc : ¬((0 : Nat) ≠ 0 ∨ (H = 0 ∧ M = 0)) := by
          rintro (h | ⟨h1, h2⟩)
          · exact h rfl
          · exact hH h1
        rw [if_neg hc, List.append_nil]
        exact (shape_hm H M).trans
          (by refine congrArg (fun q => TimeResult.mk q []) ?_; push_cast; ring)
    · rw [not_not] at hM
      subst hM
      rw [if_neg (show ¬((0 : Nat) ≠ 0) from by simp), List.append_nil]
      by_cases hZ : Z ≠ 0
      · rw [if_pos (Or.inl hZ)]
        exact (shape_hs H Z).trans
          (by refine congrArg (fun q => TimeResult.mk q []) ?_; push_cast; ring)
      · rw [not_not] at hZ
        subst hZ
        have hc : ¬((0 : Nat) ≠ 0 ∨ (H = 0 ∧ (0 : Nat) = 0)) := by
          rintro (h | ⟨h1, h2⟩)
          · exact h rfl
          · exact hH h1
        rw [if_neg hc, List.append_nil]
        exact (shape_h H).trans
          (by refine congrArg (fun q => TimeResult.mk q []) ?_; push_cast; ring)
  · rw [not_not] at hH
    subst hH
    rw [if_neg (show ¬((0 : Nat) ≠ 0) from by simp), List.nil_append]
    by_cases hM : M ≠ 0
    · rw [if_pos hM]
      by_cases hZ : Z ≠ 0
      · rw [if_pos (Or.inl hZ)]
        exact (shape_ms M Z).trans
          (by refine congrArg (fun q => TimeResult.mk q []) ?_; push_cast; ring)
      · rw [not_not] at hZ
        subst hZ
        have hc : ¬((0 : Nat) ≠ 0 ∨ ((0 : Nat) = 0 ∧ M = 0)) := by
          rintro (h | ⟨h1, h2⟩)
          · exact h rfl
          · exact hM h2
        rw [if_neg hc, List.append_nil]
        exact (shape_m M).trans
          (by refine congrArg (fun q => TimeResult.mk q []) ?_; push_cast; ring)
    · rw [not_not] at hM
      subst hM
      rw [if_neg (show ¬((0 : Nat) ≠ 0) from by simp), List.nil_append]
      rw [if_pos (Or.inr ⟨rfl, rfl⟩)]
      exact (shape_s Z).trans
        (by refine congrArg (fun q => TimeResult.mk q []) ?_; push_cast; ring)

/-- `time2str` depends on the input only through the three `gmtime`
fields it reads. -/
theorem time2strChars_congr (x y : Nat) (nsp : Bool)
    (h1 : x / 3600 % 24 + ((civilFromDays (x / 86400)).2.2 - 1) * 24 =
      y / 3600 % 24 + ((civilFromDays (y / 86400)).2.2 - 1) * 24)
    (h2 : x / 60 % 60 = y / 60 % 60) (h3 : x % 60 = y % 60) :
    time2strChars x nsp = time2strChars y nsp := by
  simp only [time2strChars, gmtime]
  rw [h1, h2, h3]

/-- Claim C8 amended: for EVERY non-negative integer `s`, the formatted
string is a fixed point of the format-parse-format round trip
(`time2str (str2time (time2str s)) = time2str s`, with nothing logged
by the parse); but parsing a previously formatted string returns the
original number of seconds only for `s < 2678400` (31 days) — beyond
that `gmtime`'s month wrap-around makes `time2str` lossy (see the
counterexample). -/
theorem roundtrip_amended :
    (∀ s : Nat, (str2time (time2str s false)).logs = [] ∧
      time2str ((str2time (time2str s false)).value.num.toNat) false = time2str s false) ∧
    (∀ s : Nat, s < 2678400 → str2time (time2str s false) = ⟨(s : ℚ), []⟩) := by
  constructor
  · intro s
    have hval := scan_time2str s
    have hmdle := mday_le (s / 86400)
    rw [show str2time (time2str s false) = str2timeCore (time2strChars s false) from rfl, hval]
    refine ⟨rfl, ?_⟩
    have hnum : ((s / 3600 % 24 + ((civilFromDays (s / 86400)).2.2 - 1) * 24 : Nat) : ℚ) * 3600 +
        ((s / 60 % 60 : Nat) : ℚ) * 60 + ((s % 60 : Nat) : ℚ) =
        (((s / 3600 % 24 + ((civilFromDays (s / 86400)).2.2 - 1) * 24) * 3600 +
          (s / 60 % 60) * 60 + s % 60 : Nat) : ℚ) := by
      push_cast
      ring
    show time2str ((((s / 3600 % 24 + ((civilFromDays (s / 86400)).2.2 - 1) * 24 : Nat) : ℚ) * 3600 +
      ((s / 60 % 60 : Nat) : ℚ) * 60 + ((s % 60 : Nat) : ℚ)).num.toNat) false = time2str s false
    rw [hnum, Rat.num_natCast, Int.toNat_natCast]
    unfold time2str
    refine congrArg (fun l => (⟨l⟩ : String)) ?_
    apply time2strChars_congr
    · rw [mday_small (((s / 3600 % 24 + ((civilFromDays (s / 86400)).2.2 - 1) * 24) * 3600 +
        (s / 60 % 60) * 60 + s % 60) / 86400) (by omega)]
      omega
    · omega
    · omega
  · intro s hs
    have hval := scan_time2str s
    rw [show str2time (time2str s false) = str2timeCore (time2strChars s false) from rfl, hval]
    refine congrArg (fun q => TimeResult.mk q []) ?_
    rw [mday_small (s / 86400) (by omega)]
    have hnat : (s / 3600 % 24 + (s / 86400 + 1 - 1) * 24) * 3600 +
        (s / 60 % 60) * 60 + s % 60 = s := by omega
    exact_mod_cast congrArg (fun n : Nat => (n : ℚ)) hnat

/-- Witness for C8's amended theorem at `s = 61`. -/
theorem roundtrip_amended_witness :
    str2time (time2str 61 false) = ⟨(61 : ℚ), []⟩ :=
  roundtrip_amended.2 61 (by omega)

/-- Counterexample to claim C8: parsing a previously formatted string
does not return the original seconds at `s = 2678400`:
`time2str` yields `"0 sec"` there, which parses back to `0.0`. -/
theorem roundtrip_counterexample :
    str2time (time2str 2678400 false) = ⟨0, []⟩ ∧ ((0 : ℚ) ≠ (2678400 : ℚ)) := by
  exact ⟨by with_unfolding_all rfl, by norm_num⟩

end Osh
